import Mathlib

/-!
Verification development for the EpiView data-join engine and formula
evaluator.  The definitions below are a shallow embedding of the JavaScript
sources `EpiViewEntry.js`, `EpiViewTable.js`,
`EpiViewTable_COVID19_UnitedStates.js` and
`EpiViewTable_COVID19_LosAngeles.js`.

Modelling conventions:
* JS numbers are modelled as `ℚ` (the code paths under study use exact
  decimal arithmetic; a division by zero, which yields Infinity/NaN in JS,
  yields `0` in `ℚ` — every place where this matters is noted).
* JS objects used as string-keyed dictionaries with insertion order
  (`entry.counts`) are modelled as association lists with unique keys where
  an update of an existing key is in place and a new key is appended.
* The table's `data` dictionary is modelled as a function
  `String → Option EpiViewEntry`; no modelled computation enumerates it
  (the one enumeration in the source, `Object.values` in `computePolygons`,
  is modelled by passing the value list explicitly).
* JS `Date` objects produced by `parseDate` are modelled as a
  year/month-index/day triple compared lexicographically, which matches JS
  `Date` comparison for calendar-valid arguments.  `setDate(getDate() - 1)`
  is modelled by `prevDay` with the Gregorian month lengths.
* Operations that would throw a `TypeError`/`ReferenceError` in JS
  (accessing a property of `undefined`, referencing the out-of-scope `fips`
  in `addBounds`) are modelled with `Option`, `none` standing for the crash.
* `throw "..."` of the evaluator is modelled with `Except String`.
* Network fetching and CSV/GeoJSON decoding are external to the join
  engine; the merge loops are modelled over already-decoded row lists.
-/

/-! ## JS dates (`parseDate`, comparison, `setDate(getDate() - 1)`) -/

/-- A JS `Date` as produced by `new Date(year, monthIndex, day)`:
`month` is the 0-based month index exactly as passed to the constructor. -/
structure JSDate where
  year : Int
  month : Int
  day : Int
deriving DecidableEq, Repr

/-- JS `d1 <= d2` on dates: comparison of time values, lexicographic on
(year, monthIndex, day) for calendar-valid dates. -/
def JSDate.ble (a b : JSDate) : Bool :=
  decide (a.year < b.year) ||
    (decide (a.year = b.year) &&
      (decide (a.month < b.month) ||
        (decide (a.month = b.month) && decide (a.day ≤ b.day))))

/-- JS `d1 < d2` on dates. -/
def JSDate.blt (a b : JSDate) : Bool :=
  decide (a.year < b.year) ||
    (decide (a.year = b.year) &&
      (decide (a.month < b.month) ||
        (decide (a.month = b.month) && decide (a.day < b.day))))

/-- Gregorian leap-year rule used by JS `Date`. -/
def isLeapYear (y : Int) : Bool :=
  (decide (y % 4 = 0) && !decide (y % 100 = 0)) || decide (y % 400 = 0)

/-- Number of days of the month with 0-based index `m` of year `y`. -/
def daysInMonth (y : Int) (m : Int) : Int :=
  if m = 1 then (if isLeapYear y then 29 else 28)
  else if m = 3 ∨ m = 5 ∨ m = 8 ∨ m = 10 then 30
  else 31

/-- `d.setDate(d.getDate() - 1)` on a calendar-valid date: step one day
back, rolling over month and year boundaries as JS date normalization
does. -/
def prevDay (d : JSDate) : JSDate :=
  if 1 < d.day then ⟨d.year, d.month, d.day - 1⟩
  else if 0 < d.month then ⟨d.year, d.month - 1, daysInMonth d.year (d.month - 1)⟩
  else ⟨d.year - 1, 11, 31⟩

/-! ## JS string helpers (`split("-")`, `Number`, `<` on strings,
`padStart`, `replace(/ \(.*\)/, "")`) -/

/-- JS `String.prototype.split` with the one-character separator `"-"`,
on the character list: `"".split("-")` is `[""]`. -/
def splitOnDash : List Char → List (List Char)
  | [] => [[]]
  | c :: rest =>
    if c = '-' then [] :: splitOnDash rest
    else
      match splitOnDash rest with
      | [] => [[c]]
      | p :: ps => (c :: p) :: ps

/-- JS `s.split("-")`. -/
def jsSplitDash (s : String) : List String :=
  (splitOnDash s.data).map fun l => ⟨l⟩

/-- Decimal digit test on a character, by code point. -/
def isDigitChar (c : Char) : Bool :=
  decide (48 ≤ c.toNat) && decide (c.toNat ≤ 57)

/-- Value of a decimal digit string. -/
def digitsVal (l : List Char) : Int :=
  l.foldl (fun a c => 10 * a + ((c.toNat : Int) - 48)) 0

/-- JS `Number(s)` restricted to the inputs the date parser meets:
a digit string yields its decimal value and `""` yields `0` (as in JS);
any other string yields NaN in JS, modelled here as `0` (out of the
modelled domain). -/
def jsToNumber (s : String) : Int :=
  if s.data.all isDigitChar then digitsVal s.data else 0

/-- `Number` of the `i`-th part of a split result; a missing part is
`undefined` in JS and makes the date component NaN, modelled as `0`
(out of the modelled domain). -/
def numAt (parts : List String) (i : Nat) : Int :=
  ((parts.get? i).map jsToNumber).getD 0

/-- `parseDate` from `EpiViewEntry.js`:
`new Date(parts[0], parts[1] - 1, parts[2])` for `parts = dateStr.split("-")`. -/
def parseDate (dateStr : String) : JSDate :=
  let parts := jsSplitDash dateStr
  ⟨numAt parts 0, numAt parts 1 - 1, numAt parts 2⟩

/-- JS `<` on strings, on character lists: lexicographic by code unit. -/
def jsCharListLt : List Char → List Char → Bool
  | [], [] => false
  | [], _ :: _ => true
  | _ :: _, [] => false
  | a :: as, b :: bs =>
    if a.toNat < b.toNat then true
    else if b.toNat < a.toNat then false
    else jsCharListLt as bs

/-- JS `s1 < s2` on strings. -/
def jsStrLt (s1 s2 : String) : Bool :=
  jsCharListLt s1.data s2.data

/-- JS `s.padStart(n, c)`. -/
def padStart (s : String) (n : Nat) (c : Char) : String :=
  ⟨List.replicate (n - s.data.length) c ++ s.data⟩

/-- The part of a character list after its last `')'` (the remainder the
greedy `.*` of the regex leaves behind). -/
def afterLastClose (l : List Char) : List Char :=
  (l.reverse.takeWhile (fun d => !decide (d = ')'))).reverse

/-- JS `s.replace(/ \(.*\)/, "")` on the character list: remove the
leftmost match of a space, `(`, a greedy run, `)` — that is, from the
first `" ("` that is followed by some `')'` through the last `')'`. -/
def jsStripParen : List Char → List Char
  | [] => []
  | c :: rest =>
    if c = ' ' then
      match rest with
      | '(' :: rest2 =>
        if rest2.contains ')' then afterLastClose rest2
        else c :: jsStripParen rest
      | _ => c :: jsStripParen rest
    else c :: jsStripParen rest

/-- JS `numerator.replace(/ \(.*\)/, "")`. -/
def stripParen (s : String) : String :=
  ⟨jsStripParen s.data⟩

/-! ## The data model: counts dictionaries and entries -/

/-- One `counts` record: `{cases, deaths}`. -/
structure CountsRec where
  cases : ℚ
  deaths : ℚ
deriving DecidableEq, Repr

/-- The `counts` dictionary of an entry: a string-keyed JS object in
insertion order with unique keys. -/
abbrev CountsMap := List (String × CountsRec)

/-- `Object.keys` of a counts dictionary, in insertion order. -/
def countsKeys (c : CountsMap) : List String :=
  c.map Prod.fst

/-- `counts[k] = v` on a JS object: update in place if the key is
present, append otherwise. -/
def countsSet (c : CountsMap) (k : String) (v : CountsRec) : CountsMap :=
  match c with
  | [] => [(k, v)]
  | (k', v') :: rest =>
    if k' = k then (k, v) :: rest else (k', v') :: countsSet rest k v

/-- In-place mutation `f` of the record at an existing key. -/
def countsModify (c : CountsMap) (k : String) (f : CountsRec → CountsRec) : CountsMap :=
  match c with
  | [] => []
  | (k', v') :: rest =>
    if k' = k then (k', f v') :: rest else (k', v') :: countsModify rest k f

/-- `counts[k]` for a key known to be present; a JS read of an absent key
gives `undefined`, modelled by the default record (out of the modelled
domain — every modelled read uses a key from `Object.keys`). -/
def countsGet (c : CountsMap) (k : String) : CountsRec :=
  ((c.find? fun p => p.1 = k).map Prod.snd).getD ⟨0, 0⟩

/-- A latitude/longitude pair as produced by `parseCoord`. -/
structure Coord where
  latitude : ℚ
  longitude : ℚ
deriving DecidableEq, Repr

/-- `parseCoord` from `EpiViewEntry.js`: a GeoJSON position (an array of
numbers `[longitude, latitude]`) to a LatLng; a missing component is
`undefined` in JS, modelled `0` (out of the modelled domain). -/
def parseCoord (coord : List ℚ) : Coord :=
  ⟨(coord.get? 1).getD 0, (coord.get? 0).getD 0⟩

/-- `EpiViewEntry`: the unit record for one region. -/
structure EpiViewEntry where
  name : String
  region : String
  population : ℚ
  area : ℚ
  bounds : List (List Coord)
  counts : CountsMap
deriving DecidableEq, Repr

/-- `new EpiViewEntry(name, region)`. -/
def EpiViewEntry.new (name region : String) : EpiViewEntry :=
  ⟨name, region, 0, 0, [], []⟩

/-- `EpiViewEntry.complete()`:
`population !== 0 && area !== 0 && bounds.length !== 0 &&
Object.keys(counts).length !== 0`. -/
def EpiViewEntry.complete (e : EpiViewEntry) : Bool :=
  decide (e.population ≠ 0) && decide (e.area ≠ 0) &&
    !e.bounds.isEmpty && !e.counts.isEmpty

/-! ## The basic evaluator (`evaluateBasic`) -/

/-- The effective-date lookup of `evaluateBasic`:
`Object.keys(this.counts).reverse().find(k => parseDate(k) <= date)`. -/
def EpiViewEntry.effectiveDateKey (e : EpiViewEntry) (date : JSDate) : Option String :=
  (countsKeys e.counts).reverse.find? fun k => (parseDate k).ble date

/-- The numerator switch of `evaluateBasic` (on
`numerator.replace(/ \(.*\)/, "")`), given the resolved effective date
key `dateStr` and the requested `date` (used for the previous-day
backfill of the daily numerators). -/
def EpiViewEntry.numerValue (e : EpiViewEntry) (numerator : String)
    (dateStr : String) (date : JSDate) : Except String ℚ :=
  let n := stripParen numerator
  if n = "cases" then .ok (countsGet e.counts dateStr).cases
  else if n = "daily new cases" then
    let v := (countsGet e.counts dateStr).cases
    match e.effectiveDateKey (prevDay date) with
    | some prevStr => .ok (v - (countsGet e.counts prevStr).cases)
    | none => .ok v
  else if n = "deaths" then .ok (countsGet e.counts dateStr).deaths
  else if n = "daily new deaths" then
    let v := (countsGet e.counts dateStr).deaths
    match e.effectiveDateKey (prevDay date) with
    | some prevStr => .ok (v - (countsGet e.counts prevStr).deaths)
    | none => .ok v
  else .error "invalid numerator"

/-- The denominator switch of `evaluateBasic`. -/
def EpiViewEntry.denomValue (e : EpiViewEntry) (denominator : String)
    (dateStr : String) : Except String ℚ :=
  if denominator = "total" then .ok 1
  else if denominator = "per case" then .ok (countsGet e.counts dateStr).cases
  else if denominator = "per 100k population" then .ok (e.population / 100000)
  else if denominator = "per sq. mi." then .ok e.area
  else .error "invalid denominator"

/-- `EpiViewEntry.evaluateBasic(numerator, denominator, date)`.
In JS `nval / dval` with `dval = 0` yields Infinity/NaN; in `ℚ` it
yields `0` (the theorems that depend on the quotient assume a nonzero
denominator). -/
def EpiViewEntry.evaluateBasic (e : EpiViewEntry) (numerator denominator : String)
    (date : JSDate) : Except String ℚ :=
  match e.effectiveDateKey date with
  | none => .ok 0
  | some dateStr =>
    match e.numerValue numerator dateStr date with
    | .error s => .error s
    | .ok nval =>
      match e.denomValue denominator dateStr with
      | .error s => .error s
      | .ok dval => .ok (nval / dval)

/-! ## The mode evaluator (`evaluate`) -/

/-- A user-defined function descriptor. `refDate` is nullable in JS and is
only read by the `"differenced between"` and `"averaged"` modes. -/
structure Udf where
  numerator : String
  denominator : String
  mode : String
  refDate : JSDate
  date : JSDate

/-- Rank used only to pre-compute a fuel bound for the averaged-mode
loop; it strictly decreases along `prevDay` on calendar-valid dates. -/
def dateRank (d : JSDate) : Int :=
  372 * d.year + 31 * d.month + d.day

/-- The date sequence of the averaged-mode loop
`for (let d = new Date(udf.date); d >= udf.refDate; d.setDate(d.getDate() - 1))`,
driven by a fuel that the loop on calendar-valid dates never exhausts
before its guard fails. -/
def averagedDatesGo : Nat → JSDate → JSDate → List JSDate
  | 0, _, _ => []
  | Nat.succ n, cur, refDate =>
    if refDate.ble cur then cur :: averagedDatesGo n (prevDay cur) refDate else []

/-- The dates the averaged mode evaluates, newest first. -/
def averagedDates (date refDate : JSDate) : List JSDate :=
  averagedDatesGo ((dateRank date - dateRank refDate).toNat + 1) date refDate

/-- `EpiViewEntry.evaluate(udf)`.  The empty averaged mode computes
`0 / values.length` with `values.length = 0`, which is NaN in JS and `0`
in the `ℚ` model. -/
def EpiViewEntry.evaluate (e : EpiViewEntry) (udf : Udf) : Except String ℚ :=
  if e.complete then
    if udf.mode = "on" then
      e.evaluateBasic udf.numerator udf.denominator udf.date
    else if udf.mode = "differenced between" then
      match e.evaluateBasic udf.numerator udf.denominator udf.date with
      | .error s => .error s
      | .ok a =>
        match e.evaluateBasic udf.numerator udf.denominator udf.refDate with
        | .error s => .error s
        | .ok b => .ok (a - b)
    else if udf.mode = "averaged" then
      match (averagedDates udf.date udf.refDate).mapM
          (fun d => e.evaluateBasic udf.numerator udf.denominator d) with
      | .error s => .error s
      | .ok vs => .ok ((vs.foldl (· + ·) 0) / (vs.length : ℚ))
    else .error "invalid mode"
  else .ok 0

/-! ## `EpiViewTable` and `computePolygons`' scaling divisor -/

/-- `EpiViewTable`: the keyed entry store.  `data` is a string-keyed JS
object, modelled as a function; `minDate`/`maxDate` start as `new Date()`
(the current time), modelled by the `now` argument of `init`. -/
structure EpiViewTable where
  data : String → Option EpiViewEntry
  minDate : JSDate
  maxDate : JSDate

/-- A freshly constructed table. -/
def EpiViewTable.init (now : JSDate) : EpiViewTable :=
  ⟨fun _ => none, now, now⟩

/-- `this.data[k] = e`. -/
def EpiViewTable.set (t : EpiViewTable) (k : String) (e : EpiViewEntry) : EpiViewTable :=
  { t with data := fun k' => if k' = k then some e else t.data k' }

/-- In-place mutation of an existing entry (every modelled call site has
just ensured the key is present; on an absent key JS would throw, a case
none of the modelled paths reach). -/
def EpiViewTable.modify (t : EpiViewTable) (k : String)
    (f : EpiViewEntry → EpiViewEntry) : EpiViewTable :=
  match t.data k with
  | some e => t.set k (f e)
  | none => t

/-- `if (!(k in this.data)) this.data[k] = e`. -/
def EpiViewTable.ensure (t : EpiViewTable) (k : String) (e : EpiViewEntry) : EpiViewTable :=
  match t.data k with
  | some _ => t
  | none => t.set k e

/-- The scaling divisor of `EpiViewTable.computePolygons`:
`fmax = Math.max(0, ...values.map(entry => entry.evaluate(udf)))`,
then `if (fmax === 0) fmax = 1`. -/
def computeFmax (vals : List ℚ) : ℚ :=
  let m := vals.foldl max 0
  if m = 0 then 1 else m

/-- The divisor computation over the table's entry values
(`Object.values(this.data)` supplied as the explicit list `entries`);
a thrown evaluation propagates. -/
def computePolygonsFmax (entries : List EpiViewEntry) (udf : Udf) : Except String ℚ := do
  let vs ← entries.mapM fun e => e.evaluate udf
  .ok (computeFmax vs)

/-! ## `EpiViewTable_COVID19_UnitedStates`: the three merge passes -/

namespace EpiViewTable_COVID19_UnitedStates

/-- A decoded row of the U.S. Census population feed (the CSV-derived
JSON carries the fields as strings; the population estimate is consumed
numerically and modelled as `ℚ`). -/
structure PopRow where
  STATE : String
  COUNTY : String
  CTYNAME : String
  STNAME : String
  POPESTIMATE2018 : ℚ
deriving DecidableEq, Repr

/-- The geometry of a GeoJSON feature; positions are arrays of numbers.
A type other than Polygon/MultiPolygon falls through the switch. -/
inductive GeoGeometry
  | polygon (coordinates : List (List (List ℚ)))
  | multiPolygon (coordinates : List (List (List (List ℚ))))
  | otherType
deriving DecidableEq, Repr

/-- A decoded feature of the U.S. Census boundary feed. -/
structure BoundFeature where
  GEOID : String
  NAME : String
  STATEFP : String
  ALAND : ℚ
  geometry : GeoGeometry
deriving DecidableEq, Repr

/-- A decoded row of the NYT case-count CSV (`cases`/`deaths` are consumed
through the `+` coercion and modelled as `ℚ`). -/
structure CountRow where
  date : String
  county : String
  state : String
  fips : String
  cases : ℚ
  deaths : ℚ
deriving DecidableEq, Repr

/-- 1 sq mi = 2589988.110336 sq m. -/
def sqMetersPerSqMile : ℚ := 2589988110336 / 1000000

/-- `bound[0].map(parseCoord)`: the outer ring of one polygon.  JS would
throw on an empty coordinates array (`bound[0]` undefined); modelled as
the empty ring, out of the modelled domain. -/
def outerRing (rings : List (List (List ℚ))) : List Coord :=
  ((rings.get? 0).getD []).map parseCoord

/-- The FIPS key of a population row:
`row.STATE.padStart(2, "0") + row.COUNTY.padStart(3, "0")`. -/
def popRowKey (row : PopRow) : String :=
  padStart row.STATE 2 '0' ++ padStart row.COUNTY 3 '0'

/-- The loop body of `addPopulation`. -/
def popStep (t : EpiViewTable) (row : PopRow) : EpiViewTable :=
  let fips := popRowKey row
  let t := t.ensure fips (EpiViewEntry.new row.CTYNAME row.STNAME)
  t.modify fips fun e => { e with population := row.POPESTIMATE2018 }

/-- `addPopulation(rawPopulation)`.  After the loop, the special handling
for New York City runs
`BOROUGHS.reduce((total, fips) => total + +this.data[fips].population)`
over `BOROUGHS = [36061, 36047, 36081, 36005, 36085]` with no initial
value, so the accumulator starts as the number `36061` itself and only
the other four boroughs' populations are read (a missing one makes
`this.data[fips]` undefined and JS throw, modelled `none`). -/
def addPopulation (t : EpiViewTable) (rows : List PopRow) : Option EpiViewTable :=
  let t1 := rows.foldl popStep t
  let t2 := t1.ensure "36000" (EpiViewEntry.new "New York City" "New York")
  match t2.data "36047", t2.data "36081", t2.data "36005", t2.data "36085" with
  | some e47, some e81, some e05, some e85 =>
    some (t2.modify "36000" fun e =>
      { e with population :=
          36061 + e47.population + e81.population + e05.population + e85.population })
  | _, _, _, _ => none

/-- The loop body of `addBounds`: create on first reference (display
labels from the feature), accumulate converted land area, push the outer
ring of each (multi-)polygon component. -/
def boundsStep (t : EpiViewTable) (f : BoundFeature) : EpiViewTable :=
  let fips := f.GEOID
  let t := t.ensure fips (EpiViewEntry.new f.NAME f.STATEFP)
  let t := t.modify fips fun e => { e with area := e.area + f.ALAND / sqMetersPerSqMile }
  match f.geometry with
  | .polygon rings => t.modify fips fun e => { e with bounds := e.bounds ++ [outerRing rings] }
  | .multiPolygon polys =>
    t.modify fips fun e => { e with bounds := e.bounds ++ polys.map outerRing }
  | .otherType => t

/-- `addBounds(rawBounds)`.  The New York City block afterwards:
* `if (!(nyc in this.data)) this.data[fips] = ...` references the loop's
  out-of-scope `fips` binding, a ReferenceError whenever `"36000"` is not
  yet a key — modelled `none`;
* `if (!("bounds" in this.data[nyc]))` is always false for constructed
  entries and its branch is dead;
* the area uses the same no-initial-value reduce as `addPopulation`
  (accumulator starts as the number `36061`, reads the other four
  boroughs), and the bounds reduce has `[]` as initial value and reads
  all five boroughs; a missing borough key makes JS throw, modelled
  `none`. -/
def addBounds (t : EpiViewTable) (features : List BoundFeature) : Option EpiViewTable :=
  let t1 := features.foldl boundsStep t
  match t1.data "36000" with
  | none => none
  | some _ =>
    match t1.data "36061", t1.data "36047", t1.data "36081",
        t1.data "36005", t1.data "36085" with
    | some e61, some e47, some e81, some e05, some e85 =>
      some ((t1.modify "36000" fun e =>
        { e with area := 36061 + e47.area + e81.area + e05.area + e85.area }).modify
          "36000" fun e =>
        { e with bounds := e61.bounds ++ e47.bounds ++ e81.bounds ++ e05.bounds ++ e85.bounds })
    | _, _, _, _, _ => none

/-- The key of a case-count row:
`row.county === "New York City" ? "36000" : row.fips`. -/
def countRowKey (row : CountRow) : String :=
  if row.county = "New York City" then "36000" else row.fips

/-- The table mutation of the `addCounts` loop body. -/
def countsStep (t : EpiViewTable) (row : CountRow) : EpiViewTable :=
  let fips := countRowKey row
  let t := t.ensure fips (EpiViewEntry.new (row.county ++ " County") row.state)
  t.modify fips fun e => { e with counts := countsSet e.counts row.date ⟨row.cases, row.deaths⟩ }

end EpiViewTable_COVID19_UnitedStates

/-- The running-minimum update of the `addCounts` loops:
`if (minDate === "" || row.date < minDate) minDate = row.date`. -/
def jsMinStep (acc d : String) : String :=
  if acc = "" ∨ jsStrLt d acc = true then d else acc

/-- The running-maximum update of the `addCounts` loops. -/
def jsMaxStep (acc d : String) : String :=
  if acc = "" ∨ jsStrLt acc d = true then d else acc

namespace EpiViewTable_COVID19_UnitedStates

/-- `addCounts(rawCountsUrl)` after the fetched CSV has been decoded into
rows: one loop populating the table and tracking the extremal date
strings, then `this.minDate = parseDate(minDate)` and
`this.maxDate = parseDate(maxDate)`. -/
def addCounts (t : EpiViewTable) (rows : List CountRow) : EpiViewTable :=
  let r := rows.foldl
    (fun acc row => (countsStep acc.1 row,
      jsMinStep acc.2.1 row.date, jsMaxStep acc.2.2 row.date))
    (t, "", "")
  { r.1 with minDate := parseDate r.2.1, maxDate := parseDate r.2.2 }

end EpiViewTable_COVID19_UnitedStates

/-! ## `EpiViewTable_COVID19_LosAngeles.addCounts` -/

namespace EpiViewTable_COVID19_LosAngeles

/-- A decoded row of the L.A. Times place-totals CSV
(`confirmed_cases` is consumed through the `+` coercion). -/
structure CountRow where
  date : String
  county : String
  place : String
  confirmed_cases : ℚ
deriving DecidableEq, Repr

/-- The region key built by the L.A. `addCounts` loop:
`` `${row.place}, ${row.county} County, California` ``. -/
def rowName (row : CountRow) : String :=
  row.place ++ ", " ++ row.county ++ " County, California"

/-- `if (!(row.date in counts)) counts[row.date] = {cases: 0, deaths: 0}`. -/
def ensureDateRec (e : EpiViewEntry) (date : String) : EpiViewEntry :=
  if (countsKeys e.counts).contains date then e
  else { e with counts := countsSet e.counts date ⟨0, 0⟩ }

/-- `counts[row.date].cases += +row.confirmed_cases`. -/
def bumpCases (e : EpiViewEntry) (date : String) (x : ℚ) : EpiViewEntry :=
  { e with counts := countsModify e.counts date fun c =>
      { c with cases := c.cases + x } }

/-- The table mutation of the L.A. `addCounts` loop body: skip rows of
other counties, create the entry on first reference, initialize the
date's record to `{cases: 0, deaths: 0}` if absent, then
`counts[row.date].cases += +row.confirmed_cases`. -/
def countsStep (t : EpiViewTable) (row : CountRow) : EpiViewTable :=
  if row.county ≠ "Los Angeles" ∧ row.county ≠ "Orange" then t
  else
    let name := rowName row
    let t := t.ensure name
      (EpiViewEntry.new row.place (row.county ++ " County, California"))
    let t := t.modify name fun e => ensureDateRec e row.date
    t.modify name fun e => bumpCases e row.date row.confirmed_cases

/-- The county filter of the loop (`continue` also skips the min/max
updates for filtered rows). -/
def rowKept (row : CountRow) : Bool :=
  !(decide (row.county ≠ "Los Angeles") && decide (row.county ≠ "Orange"))

/-- The L.A. `addCounts` after the fetched CSV has been decoded. -/
def addCounts (t : EpiViewTable) (rows : List CountRow) : EpiViewTable :=
  let r := rows.foldl
    (fun acc row =>
      if rowKept row then
        (countsStep acc.1 row, jsMinStep acc.2.1 row.date, jsMaxStep acc.2.2 row.date)
      else acc)
    (t, "", "")
  { r.1 with minDate := parseDate r.2.1, maxDate := parseDate r.2.2 }

end EpiViewTable_COVID19_LosAngeles

/-! ## General helper lemmas -/

theorem EpiViewTable.data_set (t : EpiViewTable) (k : String) (e : EpiViewEntry)
    (k' : String) : (t.set k e).data k' = if k' = k then some e else t.data k' := rfl

theorem EpiViewTable.data_ensure (t : EpiViewTable) (k : String) (e : EpiViewEntry)
    (k' : String) :
    (t.ensure k e).data k' =
      match t.data k with
      | some _ => t.data k'
      | none => if k' = k then some e else t.data k' := by
  unfold EpiViewTable.ensure
  cases h : t.data k <;> simp [h, EpiViewTable.data_set]

theorem EpiViewTable.data_modify (t : EpiViewTable) (k : String)
    (f : EpiViewEntry → EpiViewEntry) (k' : String) :
    (t.modify k f).data k' =
      match t.data k with
      | some e => if k' = k then some (f e) else t.data k'
      | none => t.data k' := by
  unfold EpiViewTable.modify
  cases h : t.data k <;> simp [h, EpiViewTable.data_set]

namespace EpiViewTable_COVID19_UnitedStates

/-- Per-key effect of one `addPopulation` loop iteration. -/
theorem popStep_data (t : EpiViewTable) (row : PopRow) (k : String) :
    (popStep t row).data k =
      if k = popRowKey row then
        some { (match t.data (popRowKey row) with
                | some e => e
                | none => EpiViewEntry.new row.CTYNAME row.STNAME) with
               population := row.POPESTIMATE2018 }
      else t.data k := by
  unfold popStep EpiViewTable.ensure EpiViewTable.modify
  cases h : t.data (popRowKey row) <;>
    simp only [h, EpiViewTable.data_set] <;>
    by_cases hk : k = popRowKey row <;>
    simp [hk, h, EpiViewTable.data_set]

/-- Per-key effect of one `addBounds` loop iteration. -/
theorem boundsStep_data (t : EpiViewTable) (f : BoundFeature) (k : String) :
    (boundsStep t f).data k =
      if k = f.GEOID then
        some (let base := match t.data f.GEOID with
                | some e => e
                | none => EpiViewEntry.new f.NAME f.STATEFP
              let pushed := match f.geometry with
                | .polygon rings => [outerRing rings]
                | .multiPolygon polys => polys.map outerRing
                | .otherType => []
              { base with area := base.area + f.ALAND / sqMetersPerSqMile,
                          bounds := base.bounds ++ pushed })
      else t.data k := by
  unfold boundsStep EpiViewTable.ensure EpiViewTable.modify
  cases h : t.data f.GEOID <;>
    cases g : f.geometry <;>
    simp only [h, g, EpiViewTable.data_set] <;>
    by_cases hk : k = f.GEOID <;>
    simp [hk, h, EpiViewTable.data_set]

/-- Per-key effect of one United States `addCounts` loop iteration on the
table component. -/
theorem countsStep_data (t : EpiViewTable) (row : CountRow) (k : String) :
    (countsStep t row).data k =
      if k = countRowKey row then
        some (let base := match t.data (countRowKey row) with
                | some e => e
                | none => EpiViewEntry.new (row.county ++ " County") row.state
              { base with counts := countsSet base.counts row.date ⟨row.cases, row.deaths⟩ })
      else t.data k := by
  unfold countsStep EpiViewTable.ensure EpiViewTable.modify
  cases h : t.data (countRowKey row) <;>
    simp only [h, EpiViewTable.data_set] <;>
    by_cases hk : k = countRowKey row <;>
    simp [hk, h, EpiViewTable.data_set]

end EpiViewTable_COVID19_UnitedStates

theorem le_foldl_max (l : List ℚ) (a : ℚ) : a ≤ l.foldl max a := by
  induction l generalizing a with
  | nil => exact le_refl a
  | cons b rest ih => exact le_trans (le_max_left a b) (ih (max a b))

theorem computeFmax_pos (vals : List ℚ) : 0 < computeFmax vals := by
  unfold computeFmax
  by_cases h : vals.foldl max 0 = 0
  · simp [h]
  · simp only [h, if_false]
    exact lt_of_le_of_ne (le_foldl_max vals 0) (fun hc => h hc.symm)

/-! ## Claim C9 -/

/-- C9: in `computePolygons`, the scaling divisor `fmax` is strictly
positive whenever the entries' evaluations all produce numbers: it is the
maximum of `0` and all entries' `evaluate` values, replaced by `1` when
that maximum is `0`, so the color-scale function never divides by zero. -/
theorem c9_fmax_positive (entries : List EpiViewEntry) (udf : Udf) (f : ℚ)
    (h : computePolygonsFmax entries udf = .ok f) : 0 < f := by
  unfold computePolygonsFmax at h
  cases hm : entries.mapM (fun e => e.evaluate udf) with
  | error s =>
    rw [hm,
      show ((Except.error s : Except String (List ℚ)) >>= fun vs =>
        (Except.ok (computeFmax vs) : Except String ℚ)) = Except.error s from rfl] at h
    exact Except.noConfusion h
  | ok vs =>
    rw [hm,
      show ((Except.ok vs : Except String (List ℚ)) >>= fun vs =>
        (Except.ok (computeFmax vs) : Except String ℚ)) = Except.ok (computeFmax vs) from
        rfl] at h
    cases h
    exact computeFmax_pos vs

/-- A UDF descriptor used by concrete instantiations. -/
def udfSample : Udf :=
  ⟨"cases", "total", "on", parseDate "2020-03-01", parseDate "2020-03-05"⟩

/-- C9 witness: on the empty entry list the divisor computes to `1`,
which is positive. -/
theorem c9_witness :
    computePolygonsFmax [] udfSample = .ok 1 ∧ (0 : ℚ) < 1 :=
  ⟨rfl, c9_fmax_positive [] udfSample 1 rfl⟩

/-! ## Claim C4 -/

/-- C4: an entry is complete iff its population is positive, its area is
positive, its bounds list is non-empty and its counts mapping is
non-empty (the source tests `!== 0`, which under the data model's
non-negativity of population and area is the same as `> 0`); and
`evaluate` returns `0` for every formula on an entry that is not
complete. -/
theorem c4_complete_iff_and_incomplete_evaluates_zero
    (e : EpiViewEntry) (udf : Udf)
    (hp : 0 ≤ e.population) (ha : 0 ≤ e.area) :
    (e.complete = true ↔
      0 < e.population ∧ 0 < e.area ∧ e.bounds ≠ [] ∧ e.counts ≠ []) ∧
    (e.complete = false → e.evaluate udf = .ok 0) := by
  constructor
  · unfold EpiViewEntry.complete
    simp only [Bool.and_eq_true, decide_eq_true_eq, Bool.not_eq_true',
      List.isEmpty_eq_false_iff_exists_mem]
    constructor
    · rintro ⟨⟨⟨h1, h2⟩, h3⟩, h4⟩
      exact ⟨lt_of_le_of_ne hp (Ne.symm h1), lt_of_le_of_ne ha (Ne.symm h2),
        by rcases h3 with ⟨x, hx⟩; exact List.ne_nil_of_mem hx,
        by rcases h4 with ⟨x, hx⟩; exact List.ne_nil_of_mem hx⟩
    · rintro ⟨h1, h2, h3, h4⟩
      refine ⟨⟨⟨ne_of_gt h1, ne_of_gt h2⟩, ?_⟩, ?_⟩
      · rcases List.exists_mem_of_ne_nil _ h3 with ⟨x, hx⟩; exact ⟨x, hx⟩
      · rcases List.exists_mem_of_ne_nil _ h4 with ⟨x, hx⟩; exact ⟨x, hx⟩
  · intro h
    unfold EpiViewEntry.evaluate
    rw [h]
    simp

/-- An entry that is not complete: zero population. -/
def entryIncomplete : EpiViewEntry :=
  ⟨"Nowhere", "Nowhere", 0, 0, [], []⟩

/-- C4 witness: the incomplete sample entry satisfies both conjuncts. -/
theorem c4_witness :
    (entryIncomplete.complete = true ↔
      0 < entryIncomplete.population ∧ 0 < entryIncomplete.area ∧
        entryIncomplete.bounds ≠ [] ∧ entryIncomplete.counts ≠ []) ∧
    (entryIncomplete.complete = false →
      entryIncomplete.evaluate udfSample = .ok 0) :=
  c4_complete_iff_and_incomplete_evaluates_zero entryIncomplete udfSample
    (le_refl 0) (le_refl 0)

/-! ## Claim C6 -/

/-- A complete entry used by the C6 evaluation. -/
def entryC6 : EpiViewEntry :=
  ⟨"Los Angeles County", "California", 1, 1, [[⟨0, 0⟩]],
    [("2020-03-01", ⟨1, 0⟩)]⟩

/-- An averaged-mode UDF whose reference date is strictly later than its
target date. -/
def udfC6 : Udf :=
  ⟨"cases", "total", "averaged", parseDate "2020-03-02", parseDate "2020-03-01"⟩

/-- C6: evaluating a complete entry in averaged mode with
`refDate > date` does not raise an invalid-argument fault.  The loop body
never runs, `values` stays empty, and the code returns the degenerate
quotient `0 / values.length` with `values.length = 0` (NaN in JS, `0` in
the `ℚ` model) as an ordinary result instead of throwing. -/
theorem c6_empty_average_returns_without_fault :
    entryC6.complete = true ∧
    (parseDate "2020-03-01").blt (parseDate "2020-03-02") = true ∧
    entryC6.evaluate udfC6 = .ok 0 := by
  refine ⟨by decide, by decide, ?_⟩
  simp [entryC6, udfC6, EpiViewEntry.evaluate, EpiViewEntry.complete, averagedDates,
    averagedDatesGo, dateRank, parseDate, JSDate.ble, jsSplitDash, splitOnDash, numAt,
    jsToNumber, digitsVal, isDigitChar, List.mapM, List.mapM.loop, pure, Except.pure]

/-! ## Claim C3 -/

namespace EpiViewTable_COVID19_UnitedStates

/-- Population rows for the five NYC boroughs, 100 inhabitants each. -/
def popRowsC3 : List PopRow :=
  [⟨"36", "061", "New York County", "New York", 100⟩,
   ⟨"36", "047", "Kings County", "New York", 100⟩,
   ⟨"36", "081", "Queens County", "New York", 100⟩,
   ⟨"36", "005", "Bronx County", "New York", 100⟩,
   ⟨"36", "085", "Richmond County", "New York", 100⟩]

/-- One boundary feature per borough, each contributing exactly one
square mile of land area. -/
def featuresC3 : List BoundFeature :=
  [⟨"36061", "New York", "36", sqMetersPerSqMile, .polygon [[[0, 0], [0, 1], [1, 0]]]⟩,
   ⟨"36047", "Kings", "36", sqMetersPerSqMile, .polygon [[[0, 0], [0, 1], [1, 0]]]⟩,
   ⟨"36081", "Queens", "36", sqMetersPerSqMile, .polygon [[[0, 0], [0, 1], [1, 0]]]⟩,
   ⟨"36005", "Bronx", "36", sqMetersPerSqMile, .polygon [[[0, 0], [0, 1], [1, 0]]]⟩,
   ⟨"36085", "Richmond", "36", sqMetersPerSqMile, .polygon [[[0, 0], [0, 1], [1, 0]]]⟩]

set_option maxHeartbeats 1000000 in
/-- C3: the composite New York City entry does NOT get the sum of its
constituents' populations and areas.  With each borough's population 100
and area 1 sq mi, the population after `addPopulation` is `36461` (not
`500`) and the area after `addBounds` is `36065` (not `5`): both
`BOROUGHS.reduce(...)` calls omit the initial value, so the first FIPS
code `36061` becomes the initial accumulator and the first borough's
value is never read. -/
theorem c3_nyc_composite_reduce_bug :
    ((addPopulation (EpiViewTable.init ⟨2020, 0, 1⟩) popRowsC3).bind
        (fun t => addBounds t featuresC3)).map
      (fun t => (t.data "36000").map (fun e => (e.population, e.area))) =
      some (some (36461, 36065)) ∧
    (36461 : ℚ) ≠ 100 + 100 + 100 + 100 + 100 ∧
    (36065 : ℚ) ≠ 1 + 1 + 1 + 1 + 1 := by
  refine ⟨?_, by norm_num, by norm_num⟩
  have k61 : popRowKey ⟨"36", "061", "New York County", "New York", 100⟩ = "36061" := rfl
  have k47 : popRowKey ⟨"36", "047", "Kings County", "New York", 100⟩ = "36047" := rfl
  have k81 : popRowKey ⟨"36", "081", "Queens County", "New York", 100⟩ = "36081" := rfl
  have k05 : popRowKey ⟨"36", "005", "Bronx County", "New York", 100⟩ = "36005" := rfl
  have k85 : popRowKey ⟨"36", "085", "Richmond County", "New York", 100⟩ = "36085" := rfl
  simp only [addPopulation, addBounds, popRowsC3, featuresC3, List.foldl,
    popStep_data, boundsStep_data, k61, k47, k81, k05, k85,
    EpiViewTable.data_ensure, EpiViewTable.data_modify, EpiViewTable.data_set,
    EpiViewTable.init, EpiViewEntry.new, String.reduceEq, reduceIte,
    Option.bind, Option.map]
  norm_num [sqMetersPerSqMile, outerRing, parseCoord]

end EpiViewTable_COVID19_UnitedStates

/-! ## Claim C1 -/

theorem JSDate.ble_refl (a : JSDate) : a.ble a = true := by
  simp [JSDate.ble]

theorem JSDate.ble_of_blt (a b : JSDate) (h : a.blt b = true) : a.ble b = true := by
  simp only [JSDate.blt, JSDate.ble, Bool.or_eq_true, Bool.and_eq_true,
    decide_eq_true_eq] at h ⊢
  omega

/-- On a list whose dates strictly decrease from head to tail, `find?`
returns the maximal element satisfying the backfill bound. -/
theorem findDescMax (pd : String → JSDate) (date : JSDate) (l : List String)
    (hp : List.Pairwise (fun a b => (pd b).blt (pd a) = true) l) (k : String)
    (hk : l.find? (fun s => (pd s).ble date) = some k) :
    k ∈ l ∧ (pd k).ble date = true ∧
      ∀ k' ∈ l, (pd k').ble date = true → (pd k').ble (pd k) = true := by
  induction l with
  | nil => cases hk
  | cons a t ih =>
    rcases List.pairwise_cons.mp hp with ⟨ha, ht⟩
    by_cases hb : (pd a).ble date = true
    · rw [@List.find?_cons_of_pos _ (fun s => (pd s).ble date) a t hb] at hk
      cases hk
      refine ⟨List.mem_cons_self _ _, hb, ?_⟩
      intro k' hk' _
      rcases List.mem_cons.mp hk' with h | hmem
      · rw [h]; exact JSDate.ble_refl _
      · exact JSDate.ble_of_blt _ _ (ha k' hmem)
    · rw [@List.find?_cons_of_neg _ (fun s => (pd s).ble date) a t (by simpa using hb)] at hk
      obtain ⟨hmem, hble, hmax⟩ := ih ht hk
      refine ⟨List.mem_cons_of_mem _ hmem, hble, ?_⟩
      intro k' hk' hble'
      rcases List.mem_cons.mp hk' with h | hmem'
      · rw [h] at hble'; exact absurd hble' hb
      · exact hmax k' hmem' hble'

/-- C1 (amended): when the `counts` keys were inserted in chronological
order, `evaluateBasic`'s effective date is the chronologically largest
key on or before the requested date (and when no key qualifies it
returns `0`, for every numerator and denominator).  Without the
chronological-insertion hypothesis the resolution is only "the
last-inserted key on or before the requested date" — see the
counterexample. -/
theorem c1_effective_date_resolution (e : EpiViewEntry) (date : JSDate)
    (num den k k' : String)
    (hsorted : List.Pairwise (fun a b => (parseDate a).blt (parseDate b) = true)
      (countsKeys e.counts)) :
    (e.effectiveDateKey date = none →
      (k' ∈ countsKeys e.counts → (parseDate k').ble date = false) ∧
      e.evaluateBasic num den date = .ok 0) ∧
    (e.effectiveDateKey date = some k →
      k ∈ countsKeys e.counts ∧ (parseDate k).ble date = true ∧
      (k' ∈ countsKeys e.counts → (parseDate k').ble date = true →
        (parseDate k').ble (parseDate k) = true)) := by
  constructor
  · intro hnone
    constructor
    · intro hmem
      have h2 := List.find?_eq_none.mp hnone k' (List.mem_reverse.mpr hmem)
      simpa using h2
    · unfold EpiViewEntry.evaluateBasic
      rw [hnone]
  · intro hsome
    have hdesc : List.Pairwise (fun a b => (parseDate b).blt (parseDate a) = true)
        (countsKeys e.counts).reverse := by
      rw [List.pairwise_reverse]
      exact hsorted
    obtain ⟨hmem, hble, hmax⟩ := findDescMax parseDate date _ hdesc k hsome
    exact ⟨List.mem_reverse.mp hmem, hble,
      fun hm hb => hmax k' (List.mem_reverse.mpr hm) hb⟩

/-- An entry whose `counts` keys are NOT in chronological insertion
order: 2020-03-05 was ingested before 2020-03-01. -/
def entryC1 : EpiViewEntry :=
  ⟨"Kings County", "New York", 1, 1, [[⟨0, 0⟩]],
    [("2020-03-05", ⟨9, 0⟩), ("2020-03-01", ⟨5, 0⟩)]⟩

/-- C1 counterexample: with out-of-chronological insertion order the
effective date is NOT the chronologically largest key on or before the
requested date.  For the request 2020-03-10, `evaluateBasic` resolves
the effective date to `2020-03-01` (the last-inserted eligible key) and
returns its value `5`, although `2020-03-05` is also an eligible key,
chronologically larger, and carries the different value `9`. -/
theorem c1_counterexample :
    entryC1.evaluateBasic "cases" "total" (parseDate "2020-03-10") = .ok 5 ∧
    entryC1.effectiveDateKey (parseDate "2020-03-10") = some "2020-03-01" ∧
    "2020-03-05" ∈ countsKeys entryC1.counts ∧
    (parseDate "2020-03-05").ble (parseDate "2020-03-10") = true ∧
    (parseDate "2020-03-01").blt (parseDate "2020-03-05") = true ∧
    (countsGet entryC1.counts "2020-03-05").cases = 9 ∧
    (5 : ℚ) ≠ 9 := by
  refine ⟨?_, by decide, by decide, by decide, by decide, by decide, by norm_num⟩
  simp [entryC1, EpiViewEntry.evaluateBasic, EpiViewEntry.effectiveDateKey,
    EpiViewEntry.numerValue, EpiViewEntry.denomValue, countsKeys, countsGet,
    stripParen, jsStripParen, parseDate, jsSplitDash, splitOnDash, numAt, jsToNumber,
    digitsVal, isDigitChar, JSDate.ble, List.find?]

/-- The same records as `entryC1`, ingested chronologically. -/
def entryC1W : EpiViewEntry :=
  ⟨"Kings County", "New York", 1, 1, [[⟨0, 0⟩]],
    [("2020-03-01", ⟨5, 0⟩), ("2020-03-05", ⟨9, 0⟩)]⟩

/-- C1 witness: the amended resolution at a chronologically-ordered
entry. -/
theorem c1_witness :
    (entryC1W.effectiveDateKey (parseDate "2020-03-10") = none →
      ("2020-03-01" ∈ countsKeys entryC1W.counts →
        (parseDate "2020-03-01").ble (parseDate "2020-03-10") = false) ∧
      entryC1W.evaluateBasic "cases" "total" (parseDate "2020-03-10") = .ok 0) ∧
    (entryC1W.effectiveDateKey (parseDate "2020-03-10") = some "2020-03-05" →
      "2020-03-05" ∈ countsKeys entryC1W.counts ∧
      (parseDate "2020-03-05").ble (parseDate "2020-03-10") = true ∧
      ("2020-03-01" ∈ countsKeys entryC1W.counts →
        (parseDate "2020-03-01").ble (parseDate "2020-03-10") = true →
        (parseDate "2020-03-01").ble (parseDate "2020-03-05") = true)) :=
  c1_effective_date_resolution entryC1W (parseDate "2020-03-10") "cases" "total"
    "2020-03-05" "2020-03-01" (by decide)

/-! ## Claim C7 -/

/-- C7 (amended): an unrecognized mode always throws `"invalid mode"`;
an unrecognized numerator or denominator throws `"invalid numerator"` /
`"invalid denominator"` PROVIDED an effective date resolves for the
requested date — when no counts key is on or before the requested date,
`evaluateBasic` returns `0` before the enum values are ever inspected
(see the counterexample). -/
theorem c7_unrecognized_enum_throws (e : EpiViewEntry) (udf : Udf)
    (num den num2 : String) (date : JSDate) (ds : String)
    (hc : e.complete = true)
    (hm : udf.mode ≠ "on" ∧ udf.mode ≠ "differenced between" ∧ udf.mode ≠ "averaged")
    (heff : e.effectiveDateKey date = some ds)
    (hn : stripParen num ≠ "cases" ∧ stripParen num ≠ "daily new cases" ∧
      stripParen num ≠ "deaths" ∧ stripParen num ≠ "daily new deaths")
    (hn2 : stripParen num2 = "cases")
    (hd : den ≠ "total" ∧ den ≠ "per case" ∧ den ≠ "per 100k population" ∧
      den ≠ "per sq. mi.") :
    e.evaluate udf = .error "invalid mode" ∧
    e.evaluateBasic num den date = .error "invalid numerator" ∧
    e.evaluateBasic num2 den date = .error "invalid denominator" := by
  refine ⟨?_, ?_, ?_⟩
  · simp [EpiViewEntry.evaluate, hc, hm.1, hm.2.1, hm.2.2]
  · simp [EpiViewEntry.evaluateBasic, heff, EpiViewEntry.numerValue,
      hn.1, hn.2.1, hn.2.2.1, hn.2.2.2]
  · simp [EpiViewEntry.evaluateBasic, heff, EpiViewEntry.numerValue, hn2,
      EpiViewEntry.denomValue, hd.1, hd.2.1, hd.2.2.1, hd.2.2.2]

/-- A complete entry whose only record is on 2020-03-05. -/
def entryC7 : EpiViewEntry :=
  ⟨"Kings County", "New York", 1, 1, [[⟨0, 0⟩]], [("2020-03-05", ⟨5, 2⟩)]⟩

/-- C7 counterexample: a complete entry evaluated in mode `"on"` with the
unrecognized numerator `"bogus"` at a date before every counts key does
NOT throw — the effective-date lookup fails first and `evaluateBasic`
silently returns `0`. -/
theorem c7_counterexample :
    entryC7.complete = true ∧
    stripParen "bogus" ≠ "cases" ∧ stripParen "bogus" ≠ "daily new cases" ∧
    stripParen "bogus" ≠ "deaths" ∧ stripParen "bogus" ≠ "daily new deaths" ∧
    entryC7.evaluate
      ⟨"bogus", "total", "on", parseDate "2020-03-01", parseDate "2020-03-01"⟩ =
      .ok 0 :=
  ⟨by decide, by decide, by decide, by decide, by decide, rfl⟩

/-- C7 witness: all three throwing paths at concrete arguments. -/
theorem c7_witness :
    entryC7.evaluate
        ⟨"cases", "total", "bogus", parseDate "2020-03-10", parseDate "2020-03-10"⟩ =
      .error "invalid mode" ∧
    entryC7.evaluateBasic "nope" "nah" (parseDate "2020-03-10") =
      .error "invalid numerator" ∧
    entryC7.evaluateBasic "cases" "nah" (parseDate "2020-03-10") =
      .error "invalid denominator" :=
  c7_unrecognized_enum_throws entryC7
    ⟨"cases", "total", "bogus", parseDate "2020-03-10", parseDate "2020-03-10"⟩
    "nope" "nah" "cases" (parseDate "2020-03-10") "2020-03-05"
    (by decide) ⟨by decide, by decide, by decide⟩ (by decide)
    ⟨by decide, by decide, by decide, by decide⟩ (by decide)
    ⟨by decide, by decide, by decide, by decide⟩

/-! ## Claim C10 -/

theorem mem_countsSet (c : CountsMap) (k : String) (v : CountsRec)
    (p : String × CountsRec) (hp : p ∈ countsSet c k v) : p = (k, v) ∨ p ∈ c := by
  induction c with
  | nil =>
    unfold countsSet at hp
    rcases List.mem_singleton.mp hp with h
    exact Or.inl h
  | cons q rest ih =>
    unfold countsSet at hp
    by_cases hq : q.1 = k
    · rw [if_pos hq] at hp
      rcases List.mem_cons.mp hp with h | h
      · exact Or.inl h
      · exact Or.inr (List.mem_cons_of_mem _ h)
    · rw [if_neg hq] at hp
      rcases List.mem_cons.mp hp with h | h
      · exact Or.inr (h ▸ List.mem_cons_self _ _)
      · rcases ih h with h2 | h2
        · exact Or.inl h2
        · exact Or.inr (List.mem_cons_of_mem _ h2)

theorem mem_countsModify (c : CountsMap) (k : String) (f : CountsRec → CountsRec)
    (p : String × CountsRec) (hp : p ∈ countsModify c k f) :
    p ∈ c ∨ ∃ q ∈ c, p = (q.1, f q.2) := by
  induction c with
  | nil => cases hp
  | cons q rest ih =>
    unfold countsModify at hp
    by_cases hq : q.1 = k
    · rw [if_pos hq] at hp
      rcases List.mem_cons.mp hp with h | h
      · exact Or.inr ⟨q, List.mem_cons_self _ _, h⟩
      · exact Or.inl (List.mem_cons_of_mem _ h)
    · rw [if_neg hq] at hp
      rcases List.mem_cons.mp hp with h | h
      · exact Or.inl (h ▸ List.mem_cons_self _ _)
      · rcases ih h with h2 | h2
        · exact Or.inl (List.mem_cons_of_mem _ h2)
        · rcases h2 with ⟨q2, hq2, hp2⟩
          exact Or.inr ⟨q2, List.mem_cons_of_mem _ hq2, hp2⟩

theorem countsGet_deaths_zero (c : CountsMap) (hz : ∀ p ∈ c, p.2.deaths = 0)
    (k : String) : (countsGet c k).deaths = 0 := by
  unfold countsGet
  cases hf : c.find? (fun p => p.1 = k) with
  | none => rfl
  | some p => exact hz p (List.mem_of_find?_eq_some hf)
/-- All stored death counts of an entry are zero. -/
def entryDeathsZero (e : EpiViewEntry) : Prop :=
  ∀ p ∈ e.counts, p.2.deaths = 0

namespace EpiViewTable_COVID19_LosAngeles

theorem ensureDateRec_deathsZero (e : EpiViewEntry) (d : String)
    (h : entryDeathsZero e) : entryDeathsZero (ensureDateRec e d) := by
  intro p hp
  unfold ensureDateRec at hp
  by_cases hc : (countsKeys e.counts).contains d
  · rw [if_pos hc] at hp
    exact h p hp
  · rw [if_neg hc] at hp
    simp only at hp
    rcases mem_countsSet _ _ _ p hp with h2 | h2
    · rw [h2]
    · exact h p h2

theorem bumpCases_deathsZero (e : EpiViewEntry) (d : String) (x : ℚ)
    (h : entryDeathsZero e) : entryDeathsZero (bumpCases e d x) := by
  intro p hp
  unfold bumpCases at hp
  simp only at hp
  rcases mem_countsModify _ _ _ p hp with h2 | ⟨q, hq, hpq⟩
  · exact h p h2
  · rw [hpq]
    exact h q hq

/-- Per-key effect of one L.A. `addCounts` loop iteration. -/
theorem countsStepLA_data (t : EpiViewTable) (row : CountRow) (k : String) :
    (countsStep t row).data k =
      if rowKept row = false then t.data k
      else if k = rowName row then
        some (bumpCases
          (ensureDateRec
            (match t.data (rowName row) with
              | some e => e
              | none => EpiViewEntry.new row.place
                  (row.county ++ " County, California"))
            row.date)
          row.date row.confirmed_cases)
      else t.data k := by
  by_cases hkept : row.county ≠ "Los Angeles" ∧ row.county ≠ "Orange"
  · have hb : rowKept row = false := by simp [rowKept, hkept.1, hkept.2]
    unfold countsStep
    rw [if_pos hkept, hb, if_pos rfl]
  · have hb : rowKept row = true := by
      unfold rowKept
      rcases not_and_or.mp hkept with h | h <;> simp at h <;> simp [h]
    unfold countsStep
    rw [if_neg hkept, hb]
    simp only [Bool.true_eq_false, if_false]
    unfold EpiViewTable.ensure EpiViewTable.modify
    cases h : t.data (rowName row) <;>
      simp only [h, EpiViewTable.data_set] <;>
      by_cases hk : k = rowName row <;>
      simp [hk, h, EpiViewTable.data_set]

/-- Every entry stored in the table has zero death counts. -/
def deathsZero (t : EpiViewTable) : Prop :=
  ∀ k e, t.data k = some e → entryDeathsZero e

theorem countsStep_deathsZero (t : EpiViewTable) (row : CountRow)
    (h : deathsZero t) : deathsZero (countsStep t row) := by
  intro k e hk
  rw [countsStepLA_data] at hk
  by_cases hkept : rowKept row = false
  · rw [if_pos hkept] at hk
    exact h k e hk
  · rw [if_neg hkept] at hk
    by_cases hname : k = rowName row
    · rw [if_pos hname] at hk
      cases hk
      apply bumpCases_deathsZero
      apply ensureDateRec_deathsZero
      cases hb : t.data (rowName row) with
      | none => simp [hb, EpiViewEntry.new, entryDeathsZero]
      | some e0 => simpa [hb] using h _ e0 hb
    · rw [if_neg hname] at hk
      exact h k e hk

theorem addCounts_deathsZero (t : EpiViewTable) (rows : List CountRow)
    (h : deathsZero t) : deathsZero (addCounts t rows) := by
  unfold addCounts
  suffices hgen : ∀ (acc : EpiViewTable × String × String), deathsZero acc.1 →
      deathsZero (rows.foldl
        (fun acc row =>
          if rowKept row then
            (countsStep acc.1 row, jsMinStep acc.2.1 row.date,
              jsMaxStep acc.2.2 row.date)
          else acc) acc).1 by
    intro k e hk
    exact hgen (t, "", "") h k e hk
  induction rows with
  | nil => intro acc ha; exact ha
  | cons r rest ih =>
    intro acc ha
    simp only [List.foldl]
    apply ih
    by_cases hr : rowKept r = true
    · rw [if_pos hr]
      exact countsStep_deathsZero _ _ ha
    · rw [if_neg hr]
      exact ha

end EpiViewTable_COVID19_LosAngeles
namespace EpiViewTable_COVID19_LosAngeles

/-- C10: the L.A. `addCounts` initializes every counts record with
deaths `0` and only ever increments the cases field, so every entry of
the resulting table keeps all death counts `0`; consequently a formula
with a deaths-based numerator evaluates to `0` over a (nonzero)
recognized denominator on these entries.  (In the `ℚ` model a zero
denominator would also produce `0`; the nonzero hypothesis keeps the
statement aligned with JS, where `0/0` is NaN.) -/
theorem c10_la_deaths_zero (t : EpiViewTable) (rows : List CountRow)
    (k : String) (e : EpiViewEntry) (num den : String) (date : JSDate)
    (h0 : deathsZero t)
    (hk : (addCounts t rows).data k = some e)
    (hnum : stripParen num = "deaths" ∨ stripParen num = "daily new deaths")
    (hden : den = "total" ∨ den = "per case" ∨ den = "per 100k population" ∨
      den = "per sq. mi.")
    (hnz : ∀ ds dv, e.denomValue den ds = .ok dv → dv ≠ 0) :
    entryDeathsZero e ∧ e.evaluateBasic num den date = .ok 0 := by
  have hz : entryDeathsZero e := addCounts_deathsZero t rows h0 k e hk
  refine ⟨hz, ?_⟩
  have hget : ∀ k', (countsGet e.counts k').deaths = 0 :=
    fun k' => countsGet_deaths_zero e.counts hz k'
  cases heff : e.effectiveDateKey date with
  | none => simp only [EpiViewEntry.evaluateBasic, heff]
  | some ds =>
    have hnval : e.numerValue num ds date = .ok 0 := by
      rcases hnum with h | h
      · simp [EpiViewEntry.numerValue, h, hget]
      · unfold EpiViewEntry.numerValue
        rw [h]
        cases hprev : e.effectiveDateKey (prevDay date) <;>
          simp [hprev, hget]
    have hdval : ∃ dv, e.denomValue den ds = .ok dv := by
      rcases hden with h | h | h | h <;> subst h
      · exact ⟨1, rfl⟩
      · exact ⟨(countsGet e.counts ds).cases, rfl⟩
      · exact ⟨e.population / 100000, rfl⟩
      · exact ⟨e.area, rfl⟩
    rcases hdval with ⟨dv, hdv⟩
    simp only [EpiViewEntry.evaluateBasic, heff, hnval, hdv]
    simp

/-- A decoded L.A. Times row. -/
def rowC10 : CountRow := ⟨"2020-03-05", "Los Angeles", "Van Nuys", 7⟩

/-- The entry `addCounts` builds from `rowC10` on a fresh table. -/
def entryC10 : EpiViewEntry :=
  bumpCases
    (ensureDateRec (EpiViewEntry.new "Van Nuys" "Los Angeles County, California")
      "2020-03-05")
    "2020-03-05" 7

/-- C10 witness: the single-row ingestion and a deaths-based
evaluation. -/
theorem c10_witness :
    entryDeathsZero entryC10 ∧
    entryC10.evaluateBasic "deaths" "total" (parseDate "2020-03-06") = .ok 0 :=
  c10_la_deaths_zero (EpiViewTable.init ⟨2020, 0, 1⟩) [rowC10]
    "Van Nuys, Los Angeles County, California" entryC10 "deaths" "total"
    (parseDate "2020-03-06")
    (by intro k e h; simp [EpiViewTable.init] at h)
    rfl
    (Or.inl (by decide))
    (Or.inl rfl)
    (by intro ds dv h
        simp [EpiViewEntry.denomValue] at h
        rw [← h]
        norm_num)

end EpiViewTable_COVID19_LosAngeles


/-! ## Claim C8 -/

theorem jsCharListLt_nil_nil : jsCharListLt [] [] = false := rfl

theorem jsCharListLt_cons (x y : Char) (xs ys : List Char) :
    jsCharListLt (x :: xs) (y :: ys) = true ↔
      (x.toNat < y.toNat ∨ (x.toNat = y.toNat ∧ jsCharListLt xs ys = true)) := by
  by_cases h1 : x.toNat < y.toNat <;> by_cases h2 : y.toNat < x.toNat
  · omega
  · simp [jsCharListLt, h1, h2]
  · have h3 : ¬x.toNat = y.toNat := by omega
    simp [jsCharListLt, h1, h2, h3]
  · have h3 : x.toNat = y.toNat := by omega
    simp [jsCharListLt, h1, h2, h3]

theorem jsCharListLt_irrefl (a : List Char) : jsCharListLt a a = false := by
  induction a with
  | nil => rfl
  | cons x xs ih =>
    by_cases h : jsCharListLt (x :: xs) (x :: xs) = true
    · rw [jsCharListLt_cons] at h
      rcases h with h | ⟨_, h⟩
      · omega
      · rw [ih] at h; cases h
    · simpa using h

theorem jsCharListLt_trans (a : List Char) : ∀ b c, jsCharListLt a b = true →
    jsCharListLt b c = true → jsCharListLt a c = true := by
  induction a with
  | nil =>
    intro b c hab hbc
    cases b with
    | nil => cases hab
    | cons y ys =>
      cases c with
      | nil => cases hbc
      | cons z zs => rfl
  | cons x xs ih =>
    intro b c hab hbc
    cases b with
    | nil => cases hab
    | cons y ys =>
      cases c with
      | nil => cases hbc
      | cons z zs =>
        rw [jsCharListLt_cons] at hab hbc ⊢
        rcases hab with h1 | ⟨h1, hr1⟩
        · rcases hbc with h2 | ⟨h2, _⟩
          · exact Or.inl (by omega)
          · exact Or.inl (by omega)
        · rcases hbc with h2 | ⟨h2, hr2⟩
          · exact Or.inl (by omega)
          · exact Or.inr ⟨by omega, ih ys zs hr1 hr2⟩

/-- Co-transitivity of the lexicographic order: a strict comparison can
be split at any middle list. -/
theorem jsCharListLt_cotrans (a : List Char) : ∀ c b, jsCharListLt a c = true →
    jsCharListLt a b = true ∨ jsCharListLt b c = true := by
  induction a with
  | nil =>
    intro c b hac
    cases c with
    | nil => cases hac
    | cons z zs =>
      cases b with
      | nil => exact Or.inr rfl
      | cons y ys => exact Or.inl rfl
  | cons x xs ih =>
    intro c b hac
    cases c with
    | nil => cases hac
    | cons z zs =>
      cases b with
      | nil => exact Or.inr rfl
      | cons y ys =>
        rw [jsCharListLt_cons] at hac
        by_cases hxy : x.toNat < y.toNat
        · exact Or.inl ((jsCharListLt_cons _ _ _ _).mpr (Or.inl hxy))
        · by_cases hyz : y.toNat < z.toNat
          · exact Or.inr ((jsCharListLt_cons _ _ _ _).mpr (Or.inl hyz))
          · rcases hac with h | ⟨h, hr⟩
            · exact Or.inr ((jsCharListLt_cons _ _ _ _).mpr (Or.inl (by omega)))
            · rcases ih zs ys hr with h2 | h2
              · exact Or.inl ((jsCharListLt_cons _ _ _ _).mpr (Or.inr ⟨by omega, h2⟩))
              · exact Or.inr ((jsCharListLt_cons _ _ _ _).mpr (Or.inr ⟨by omega, h2⟩))

theorem jsStrLt_irrefl (a : String) : jsStrLt a a = false :=
  jsCharListLt_irrefl a.data

theorem jsStrLt_trans (a b c : String) (h1 : jsStrLt a b = true)
    (h2 : jsStrLt b c = true) : jsStrLt a c = true :=
  jsCharListLt_trans a.data b.data c.data h1 h2

theorem jsStrLt_cotrans (a c b : String) (h : jsStrLt a c = true) :
    jsStrLt a b = true ∨ jsStrLt b c = true :=
  jsCharListLt_cotrans a.data c.data b.data h
/-- The running minimum over non-sentinel strings: member of the inputs
(or the start), and no input is strictly below it. -/
theorem foldl_jsMinStep_spec (dates : List String) : ∀ a : String, a ≠ "" →
    (∀ d ∈ dates, d ≠ "") →
    (dates.foldl jsMinStep a = a ∨ dates.foldl jsMinStep a ∈ dates) ∧
    jsStrLt a (dates.foldl jsMinStep a) = false ∧
    ∀ d ∈ dates, jsStrLt d (dates.foldl jsMinStep a) = false := by
  induction dates with
  | nil =>
    intro a ha _
    exact ⟨Or.inl rfl, jsStrLt_irrefl a, by intro d hd; cases hd⟩
  | cons d0 rest ih =>
    intro a ha hall
    have hd0 : d0 ≠ "" := hall d0 (List.mem_cons_self _ _)
    have hrest : ∀ d ∈ rest, d ≠ "" := fun d hd => hall d (List.mem_cons_of_mem _ hd)
    by_cases hlt : jsStrLt d0 a = true
    · have hstep : jsMinStep a d0 = d0 := by
        unfold jsMinStep
        rw [if_pos (Or.inr hlt)]
      rw [List.foldl_cons, hstep]
      obtain ⟨hmem, hle, hmin⟩ := ih d0 hd0 hrest
      refine ⟨?_, ?_, ?_⟩
      · rcases hmem with h | h
        · exact Or.inr (by rw [h]; exact List.mem_cons_self _ _)
        · exact Or.inr (List.mem_cons_of_mem _ h)
      · by_cases hc : jsStrLt a (rest.foldl jsMinStep d0) = true
        · exfalso
          have := jsStrLt_trans d0 a _ hlt hc
          rw [hle] at this
          cases this
        · simpa using hc
      · intro d hd
        rcases List.mem_cons.mp hd with h | h
        · rw [h]; exact hle
        · exact hmin d h
    · have hstep : jsMinStep a d0 = a := by
        unfold jsMinStep
        rw [if_neg]
        push_neg
        exact ⟨ha, by simpa using hlt⟩
      rw [List.foldl_cons, hstep]
      obtain ⟨hmem, hle, hmin⟩ := ih a ha hrest
      refine ⟨?_, hle, ?_⟩
      · rcases hmem with h | h
        · exact Or.inl h
        · exact Or.inr (List.mem_cons_of_mem _ h)
      · intro d hd
        rcases List.mem_cons.mp hd with h | h
        · subst h
          by_cases hc : jsStrLt d (rest.foldl jsMinStep a) = true
          · exfalso
            rcases jsStrLt_cotrans d (rest.foldl jsMinStep a) a hc with h2 | h2
            · rw [h2] at hlt; exact hlt rfl
            · rw [hle] at h2; cases h2
          · simpa using hc
        · exact hmin d h

/-- The running maximum over non-sentinel strings. -/
theorem foldl_jsMaxStep_spec (dates : List String) : ∀ a : String, a ≠ "" →
    (∀ d ∈ dates, d ≠ "") →
    (dates.foldl jsMaxStep a = a ∨ dates.foldl jsMaxStep a ∈ dates) ∧
    jsStrLt (dates.foldl jsMaxStep a) a = false ∧
    ∀ d ∈ dates, jsStrLt (dates.foldl jsMaxStep a) d = false := by
  induction dates with
  | nil =>
    intro a ha _
    exact ⟨Or.inl rfl, jsStrLt_irrefl a, by intro d hd; cases hd⟩
  | cons d0 rest ih =>
    intro a ha hall
    have hd0 : d0 ≠ "" := hall d0 (List.mem_cons_self _ _)
    have hrest : ∀ d ∈ rest, d ≠ "" := fun d hd => hall d (List.mem_cons_of_mem _ hd)
    by_cases hlt : jsStrLt a d0 = true
    · have hstep : jsMaxStep a d0 = d0 := by
        unfold jsMaxStep
        rw [if_pos (Or.inr hlt)]
      rw [List.foldl_cons, hstep]
      obtain ⟨hmem, hge, hmax⟩ := ih d0 hd0 hrest
      refine ⟨?_, ?_, ?_⟩
      · rcases hmem with h | h
        · exact Or.inr (by rw [h]; exact List.mem_cons_self _ _)
        · exact Or.inr (List.mem_cons_of_mem _ h)
      · by_cases hc : jsStrLt (rest.foldl jsMaxStep d0) a = true
        · exfalso
          have := jsStrLt_trans _ a d0 hc hlt
          rw [hge] at this
          cases this
        · simpa using hc
      · intro d hd
        rcases List.mem_cons.mp hd with h | h
        · rw [h]; exact hge
        · exact hmax d h
    · have hstep : jsMaxStep a d0 = a := by
        unfold jsMaxStep
        rw [if_neg]
        push_neg
        exact ⟨ha, by simpa using hlt⟩
      rw [List.foldl_cons, hstep]
      obtain ⟨hmem, hge, hmax⟩ := ih a ha hrest
      refine ⟨?_, hge, ?_⟩
      · rcases hmem with h | h
        · exact Or.inl h
        · exact Or.inr (List.mem_cons_of_mem _ h)
      · intro d hd
        rcases List.mem_cons.mp hd with h | h
        · subst h
          by_cases hc : jsStrLt (rest.foldl jsMaxStep a) d = true
          · exfalso
            rcases jsStrLt_cotrans _ d a hc with h2 | h2
            · rw [hge] at h2; cases h2
            · rw [h2] at hlt; exact hlt rfl
          · simpa using hc
        · exact hmax d h
/-- A well-formed `YYYY-MM-DD` string: four digits, a dash, two digits,
a dash, two digits. -/
def validIso (s : String) : Prop :=
  ∃ y1 y2 y3 y4 m1 m2 d1 d2 : Char,
    s.data = [y1, y2, y3, y4, '-', m1, m2, '-', d1, d2] ∧
    isDigitChar y1 = true ∧ isDigitChar y2 = true ∧ isDigitChar y3 = true ∧
    isDigitChar y4 = true ∧ isDigitChar m1 = true ∧ isDigitChar m2 = true ∧
    isDigitChar d1 = true ∧ isDigitChar d2 = true

theorem validIso_ne_empty (s : String) (h : validIso s) : s ≠ "" := by
  rcases h with ⟨y1, y2, y3, y4, m1, m2, d1, d2, hdata, _⟩
  intro he
  rw [he] at hdata
  cases hdata

theorem digit_ne_dash (c : Char) (h : isDigitChar c = true) : ¬c = '-' := by
  intro hc
  subst hc
  simp [isDigitChar] at h

theorem splitOnDash_iso (y1 y2 y3 y4 m1 m2 d1 d2 : Char)
    (h1 : isDigitChar y1 = true) (h2 : isDigitChar y2 = true)
    (h3 : isDigitChar y3 = true) (h4 : isDigitChar y4 = true)
    (h5 : isDigitChar m1 = true) (h6 : isDigitChar m2 = true)
    (h7 : isDigitChar d1 = true) (h8 : isDigitChar d2 = true) :
    splitOnDash [y1, y2, y3, y4, '-', m1, m2, '-', d1, d2] =
      [[y1, y2, y3, y4], [m1, m2], [d1, d2]] := by
  simp [splitOnDash, digit_ne_dash _ h1, digit_ne_dash _ h2, digit_ne_dash _ h3,
    digit_ne_dash _ h4, digit_ne_dash _ h5, digit_ne_dash _ h6,
    digit_ne_dash _ h7, digit_ne_dash _ h8]

theorem parseDate_iso (s : String) (y1 y2 y3 y4 m1 m2 d1 d2 : Char)
    (hdata : s.data = [y1, y2, y3, y4, '-', m1, m2, '-', d1, d2])
    (h1 : isDigitChar y1 = true) (h2 : isDigitChar y2 = true)
    (h3 : isDigitChar y3 = true) (h4 : isDigitChar y4 = true)
    (h5 : isDigitChar m1 = true) (h6 : isDigitChar m2 = true)
    (h7 : isDigitChar d1 = true) (h8 : isDigitChar d2 = true) :
    parseDate s =
      ⟨digitsVal [y1, y2, y3, y4], digitsVal [m1, m2] - 1, digitsVal [d1, d2]⟩ := by
  unfold parseDate jsSplitDash
  rw [hdata, splitOnDash_iso y1 y2 y3 y4 m1 m2 d1 d2 h1 h2 h3 h4 h5 h6 h7 h8]
  simp [numAt, jsToNumber, h1, h2, h3, h4, h5, h6, h7, h8]
/-- Lexicographic comparison of well-formed ISO date strings coincides
with chronological comparison of their parsed dates. -/
theorem iso_string_lt_iff_date_lt (s1 s2 : String)
    (hv1 : validIso s1) (hv2 : validIso s2) :
    (jsStrLt s1 s2 = true ↔ (parseDate s1).blt (parseDate s2) = true) := by
  rcases hv1 with ⟨a1, a2, a3, a4, a5, a6, a7, a8, hd1, p1, p2, p3, p4, p5, p6, p7, p8⟩
  rcases hv2 with ⟨b1, b2, b3, b4, b5, b6, b7, b8, hd2, q1, q2, q3, q4, q5, q6, q7, q8⟩
  rw [parseDate_iso s1 a1 a2 a3 a4 a5 a6 a7 a8 hd1 p1 p2 p3 p4 p5 p6 p7 p8,
    parseDate_iso s2 b1 b2 b3 b4 b5 b6 b7 b8 hd2 q1 q2 q3 q4 q5 q6 q7 q8]
  unfold jsStrLt
  rw [hd1, hd2]
  simp only [jsCharListLt_cons, jsCharListLt_nil_nil, JSDate.blt, digitsVal,
    List.foldl, Bool.or_eq_true, Bool.and_eq_true, decide_eq_true_eq,
    lt_self_iff_false, Bool.false_eq_true, true_and, and_false, or_false,
    false_or, false_and]
  simp only [isDigitChar, Bool.and_eq_true,
    decide_eq_true_eq] at p1 p2 p3 p4 p5 p6 p7 p8 q1 q2 q3 q4 q5 q6 q7 q8
  omega
namespace EpiViewTable_COVID19_UnitedStates

/-- The three components of the `addCounts` loop state evolve
independently. -/
theorem countsFold_components (rows : List CountRow) :
    ∀ (t : EpiViewTable) (a b : String),
      (rows.foldl (fun acc row => (countsStep acc.1 row, jsMinStep acc.2.1 row.date,
          jsMaxStep acc.2.2 row.date)) (t, a, b)).2.1 =
        (rows.map CountRow.date).foldl jsMinStep a ∧
      (rows.foldl (fun acc row => (countsStep acc.1 row, jsMinStep acc.2.1 row.date,
          jsMaxStep acc.2.2 row.date)) (t, a, b)).2.2 =
        (rows.map CountRow.date).foldl jsMaxStep b := by
  induction rows with
  | nil => intro t a b; exact ⟨rfl, rfl⟩
  | cons r rest ih =>
    intro t a b
    simp only [List.foldl, List.map]
    exact ih _ _ _

/-- C8: after `addCounts` over a non-empty batch, `minDate`/`maxDate`
are the parses of the smallest/largest date string among the ingested
rows under JS string comparison, and on well-formed `YYYY-MM-DD`
strings that comparison coincides with chronological order of the
parsed dates. -/
theorem c8_minmax_and_iso_order (t : EpiViewTable) (rows : List CountRow)
    (hne : rows ≠ []) (hv : ∀ r ∈ rows, validIso r.date) :
    (∃ m ∈ rows.map CountRow.date, (addCounts t rows).minDate = parseDate m ∧
      ∀ d ∈ rows.map CountRow.date, jsStrLt d m = false) ∧
    (∃ M ∈ rows.map CountRow.date, (addCounts t rows).maxDate = parseDate M ∧
      ∀ d ∈ rows.map CountRow.date, jsStrLt M d = false) ∧
    (∀ s1 s2, validIso s1 → validIso s2 →
      (jsStrLt s1 s2 = true ↔ (parseDate s1).blt (parseDate s2) = true)) := by
  have hmin : (addCounts t rows).minDate =
      parseDate ((rows.map CountRow.date).foldl jsMinStep "") := by
    show parseDate ((rows.foldl (fun acc row => (countsStep acc.1 row,
      jsMinStep acc.2.1 row.date, jsMaxStep acc.2.2 row.date)) (t, "", "")).2.1) = _
    rw [(countsFold_components rows t "" "").1]
  have hmax : (addCounts t rows).maxDate =
      parseDate ((rows.map CountRow.date).foldl jsMaxStep "") := by
    show parseDate ((rows.foldl (fun acc row => (countsStep acc.1 row,
      jsMinStep acc.2.1 row.date, jsMaxStep acc.2.2 row.date)) (t, "", "")).2.2) = _
    rw [(countsFold_components rows t "" "").2]
  cases hrows : rows with
  | nil => exact absurd hrows hne
  | cons r0 rest =>
    have hvr := hrows ▸ hv
    have hd0 : r0.date ≠ "" :=
      validIso_ne_empty _ (hvr r0 (List.mem_cons_self _ _))
    have hrest : ∀ d ∈ rest.map CountRow.date, d ≠ "" := by
      intro d hd
      rcases List.mem_map.mp hd with ⟨r, hr, hrd⟩
      exact hrd ▸ validIso_ne_empty _ (hvr r (List.mem_cons_of_mem _ hr))
    have hstep_min : jsMinStep "" r0.date = r0.date := by
      unfold jsMinStep
      rw [if_pos (Or.inl rfl)]
    have hstep_max : jsMaxStep "" r0.date = r0.date := by
      unfold jsMaxStep
      rw [if_pos (Or.inl rfl)]
    subst hrows
    refine ⟨?_, ?_, fun s1 s2 h1 h2 => iso_string_lt_iff_date_lt s1 s2 h1 h2⟩
    · obtain ⟨hmem, hle, hminall⟩ :=
        foldl_jsMinStep_spec (rest.map CountRow.date) r0.date hd0 hrest
      refine ⟨(rest.map CountRow.date).foldl jsMinStep r0.date, ?_, ?_, ?_⟩
      · simp only [List.map]
        rcases hmem with h | h
        · rw [h]; exact List.mem_cons_self _ _
        · exact List.mem_cons_of_mem _ h
      · rw [hmin]
        simp only [List.map, List.foldl_cons, hstep_min]
      · intro d hd
        simp only [List.map, List.mem_cons] at hd
        rcases hd with h | h
        · rw [h]; exact hle
        · exact hminall d h
    · obtain ⟨hmem, hge, hmaxall⟩ :=
        foldl_jsMaxStep_spec (rest.map CountRow.date) r0.date hd0 hrest
      refine ⟨(rest.map CountRow.date).foldl jsMaxStep r0.date, ?_, ?_, ?_⟩
      · simp only [List.map]
        rcases hmem with h | h
        · rw [h]; exact List.mem_cons_self _ _
        · exact List.mem_cons_of_mem _ h
      · rw [hmax]
        simp only [List.map, List.foldl_cons, hstep_max]
      · intro d hd
        simp only [List.map, List.mem_cons] at hd
        rcases hd with h | h
        · rw [h]; exact hge
        · exact hmaxall d h

end EpiViewTable_COVID19_UnitedStates
namespace EpiViewTable_COVID19_UnitedStates

/-- Two NYT rows for one county, ingested newest-first. -/
def rowsC8 : List CountRow :=
  [⟨"2020-03-05", "Kings", "New York", "36047", 5, 2⟩,
   ⟨"2020-03-01", "Kings", "New York", "36047", 3, 1⟩]

/-- C8 witness: the extremal dates of a concrete two-row batch. -/
theorem c8_witness :
    (∃ m ∈ rowsC8.map CountRow.date,
      (addCounts (EpiViewTable.init ⟨2020, 0, 1⟩) rowsC8).minDate = parseDate m ∧
      ∀ d ∈ rowsC8.map CountRow.date, jsStrLt d m = false) ∧
    (∃ M ∈ rowsC8.map CountRow.date,
      (addCounts (EpiViewTable.init ⟨2020, 0, 1⟩) rowsC8).maxDate = parseDate M ∧
      ∀ d ∈ rowsC8.map CountRow.date, jsStrLt M d = false) ∧
    (∀ s1 s2, validIso s1 → validIso s2 →
      (jsStrLt s1 s2 = true ↔ (parseDate s1).blt (parseDate s2) = true)) :=
  c8_minmax_and_iso_order (EpiViewTable.init ⟨2020, 0, 1⟩) rowsC8
    (by simp [rowsC8])
    (by intro r hr
        simp only [rowsC8, List.mem_cons, List.not_mem_nil, or_false] at hr
        rcases hr with h | h <;> subst h
        · exact ⟨'2', '0', '2', '0', '0', '3', '0', '5',
            rfl, rfl, rfl, rfl, rfl, rfl, rfl, rfl, rfl⟩
        · exact ⟨'2', '0', '2', '0', '0', '3', '0', '1',
            rfl, rfl, rfl, rfl, rfl, rfl, rfl, rfl, rfl⟩)

end EpiViewTable_COVID19_UnitedStates


/-! ## Claims C2 and C5: the merge-pass algebra -/

/-! Shared projections and loop characterizations for the merge passes -/

/-- Population of a key, `0` when absent (a fresh entry also starts at 0). -/
def popAt (t : EpiViewTable) (k : String) : ℚ :=
  ((t.data k).map EpiViewEntry.population).getD 0

/-- Area of a key, `0` when absent. -/
def areaAt (t : EpiViewTable) (k : String) : ℚ :=
  ((t.data k).map EpiViewEntry.area).getD 0

/-- Bounds of a key, `[]` when absent. -/
def boundsAt (t : EpiViewTable) (k : String) : List (List Coord) :=
  ((t.data k).map EpiViewEntry.bounds).getD []

/-- Counts of a key, `[]` when absent. -/
def countsAt (t : EpiViewTable) (k : String) : CountsMap :=
  ((t.data k).map EpiViewEntry.counts).getD []

/-- Whether a key is present. -/
def existsAt (t : EpiViewTable) (k : String) : Prop :=
  (t.data k).isSome = true

/-- Last element of a list, with a default: `foldl` form. -/
def lastD (l : List ℚ) (d : ℚ) : ℚ :=
  l.foldl (fun _ x => x) d

theorem lastD_nil (d : ℚ) : lastD [] d = d := rfl

theorem lastD_cons (x : ℚ) (l : List ℚ) (d : ℚ) : lastD (x :: l) d = lastD l x := rfl

theorem lastD_lastD (l : List ℚ) (d : ℚ) : lastD l (lastD l d) = lastD l d := by
  cases l with
  | nil => rfl
  | cons x xs => rfl

namespace EpiViewTable_COVID19_UnitedStates

/-- The population rows that address key `k`. -/
def popHits (rows : List PopRow) (k : String) : List PopRow :=
  rows.filter fun r => popRowKey r = k

/-- The effect of a run of population rows on one entry. -/
def applyPopHits (e : EpiViewEntry) (hs : List PopRow) : EpiViewEntry :=
  hs.foldl (fun e r => { e with population := r.POPESTIMATE2018 }) e

theorem applyPopHits_eq (e : EpiViewEntry) (hs : List PopRow) :
    applyPopHits e hs =
      { e with population := lastD (hs.map PopRow.POPESTIMATE2018) e.population } := by
  induction hs generalizing e with
  | nil => rfl
  | cons r rest ih =>
    show applyPopHits { e with population := r.POPESTIMATE2018 } rest = _
    rw [ih]
    rfl

/-- Characterization of the `addPopulation` loop at one key. -/
theorem popLoop_data (rows : List PopRow) : ∀ (t : EpiViewTable) (k : String),
    (rows.foldl popStep t).data k =
      match t.data k with
      | some e => some (applyPopHits e (popHits rows k))
      | none =>
        match popHits rows k with
        | [] => none
        | r :: _ =>
          some (applyPopHits (EpiViewEntry.new r.CTYNAME r.STNAME) (popHits rows k)) := by
  induction rows with
  | nil =>
    intro t k
    cases h : t.data k <;> simp [popHits, applyPopHits, List.foldl, h]
  | cons r0 rest ih =>
    intro t k
    rw [List.foldl_cons, ih (popStep t r0) k]
    rw [popStep_data t r0 k]
    by_cases hk : k = popRowKey r0
    · subst hk
      rw [if_pos rfl]
      have hfilter : popHits (r0 :: rest) (popRowKey r0) = r0 :: popHits rest (popRowKey r0) := by
        unfold popHits
        rw [List.filter_cons_of_pos]
        simp
      cases h : t.data (popRowKey r0) with
      | some e =>
        simp only [h, hfilter]
        rfl
      | none =>
        simp only [h, hfilter]
        rfl
    · rw [if_neg hk]
      have hfilter : popHits (r0 :: rest) k = popHits rest k := by
        unfold popHits
        rw [List.filter_cons_of_neg]
        simp
        intro hc
        exact absurd hc.symm hk
      cases h : t.data k <;> simp only [h, hfilter]

end EpiViewTable_COVID19_UnitedStates
namespace EpiViewTable_COVID19_UnitedStates

/-- The case-count rows that address key `k`. -/
def countHits (rows : List CountRow) (k : String) : List CountRow :=
  rows.filter fun r => countRowKey r = k

/-- The effect of a run of case-count rows on one entry. -/
def applyCountHits (e : EpiViewEntry) (hs : List CountRow) : EpiViewEntry :=
  hs.foldl
    (fun e r => { e with counts := countsSet e.counts r.date ⟨r.cases, r.deaths⟩ }) e

/-- The effect of a run of case-count rows on one counts dictionary. -/
def applyCountHitsMap (c : CountsMap) (hs : List CountRow) : CountsMap :=
  hs.foldl (fun c r => countsSet c r.date ⟨r.cases, r.deaths⟩) c

theorem applyCountHits_eq (e : EpiViewEntry) (hs : List CountRow) :
    applyCountHits e hs = { e with counts := applyCountHitsMap e.counts hs } := by
  induction hs generalizing e with
  | nil => rfl
  | cons r rest ih =>
    show applyCountHits { e with counts := countsSet e.counts r.date ⟨r.cases, r.deaths⟩ }
        rest = _
    rw [ih]
    rfl

/-- Characterization of the United States `addCounts` loop at one key. -/
theorem countsLoop_data (rows : List CountRow) : ∀ (t : EpiViewTable) (k : String),
    (rows.foldl countsStep t).data k =
      match t.data k with
      | some e => some (applyCountHits e (countHits rows k))
      | none =>
        match countHits rows k with
        | [] => none
        | r :: _ =>
          some (applyCountHits (EpiViewEntry.new (r.county ++ " County") r.state)
            (countHits rows k)) := by
  induction rows with
  | nil =>
    intro t k
    cases h : t.data k <;> simp [countHits, applyCountHits, List.foldl, h]
  | cons r0 rest ih =>
    intro t k
    rw [List.foldl_cons, ih (countsStep t r0) k]
    rw [countsStep_data t r0 k]
    by_cases hk : k = countRowKey r0
    · subst hk
      rw [if_pos rfl]
      have hfilter : countHits (r0 :: rest) (countRowKey r0) =
          r0 :: countHits rest (countRowKey r0) := by
        unfold countHits
        rw [List.filter_cons_of_pos]
        simp
      cases h : t.data (countRowKey r0) with
      | some e =>
        simp only [h, hfilter]
        rfl
      | none =>
        simp only [h, hfilter]
        rfl
    · rw [if_neg hk]
      have hfilter : countHits (r0 :: rest) k = countHits rest k := by
        unfold countHits
        rw [List.filter_cons_of_neg]
        simp
        intro hc
        exact absurd hc.symm hk
      cases h : t.data k <;> simp only [h, hfilter]

/-- The boundary features that address key `k`. -/
def boundHits (features : List BoundFeature) (k : String) : List BoundFeature :=
  features.filter fun f => f.GEOID = k

/-- The polygons one feature pushes. -/
def featPolys (f : BoundFeature) : List (List Coord) :=
  match f.geometry with
  | .polygon rings => [outerRing rings]
  | .multiPolygon polys => polys.map outerRing
  | .otherType => []

/-- The effect of a run of boundary features on one entry. -/
def applyBoundHits (e : EpiViewEntry) (hs : List BoundFeature) : EpiViewEntry :=
  hs.foldl
    (fun e f => { e with area := e.area + f.ALAND / sqMetersPerSqMile,
                         bounds := e.bounds ++ featPolys f }) e

/-- Characterization of the `addBounds` loop at one key. -/
theorem boundsLoop_data (features : List BoundFeature) :
    ∀ (t : EpiViewTable) (k : String),
    (features.foldl boundsStep t).data k =
      match t.data k with
      | some e => some (applyBoundHits e (boundHits features k))
      | none =>
        match boundHits features k with
        | [] => none
        | f :: _ =>
          some (applyBoundHits (EpiViewEntry.new f.NAME f.STATEFP)
            (boundHits features k)) := by
  induction features with
  | nil =>
    intro t k
    cases h : t.data k <;> simp [boundHits, applyBoundHits, List.foldl, h]
  | cons f0 rest ih =>
    intro t k
    rw [List.foldl_cons, ih (boundsStep t f0) k]
    rw [boundsStep_data t f0 k]
    by_cases hk : k = f0.GEOID
    · subst hk
      rw [if_pos rfl]
      have hfilter : boundHits (f0 :: rest) f0.GEOID =
          f0 :: boundHits rest f0.GEOID := by
        unfold boundHits
        rw [List.filter_cons_of_pos]
        simp
      cases h : t.data f0.GEOID with
      | some e =>
        simp only [h, hfilter]
        cases g : f0.geometry <;> simp only [g] <;>
          simp [applyBoundHits, featPolys, g]
      | none =>
        simp only [h, hfilter]
        cases g : f0.geometry <;> simp only [g] <;>
          simp [applyBoundHits, featPolys, g]
    · rw [if_neg hk]
      have hfilter : boundHits (f0 :: rest) k = boundHits rest k := by
        unfold boundHits
        rw [List.filter_cons_of_neg]
        simp
        intro hc
        exact absurd hc.symm hk
      cases h : t.data k <;> simp only [h, hfilter]

end EpiViewTable_COVID19_UnitedStates
theorem EpiViewTable.ensure_data_other (t : EpiViewTable) (k : String)
    (e : EpiViewEntry) (k' : String) (h : k' ≠ k) :
    (t.ensure k e).data k' = t.data k' := by
  rw [EpiViewTable.data_ensure]
  cases hd : t.data k <;> simp [h]

theorem EpiViewTable.ensure_data_self (t : EpiViewTable) (k : String)
    (e : EpiViewEntry) : (t.ensure k e).data k = some ((t.data k).getD e) := by
  rw [EpiViewTable.data_ensure]
  cases hd : t.data k <;> simp

theorem EpiViewTable.modify_data_other (t : EpiViewTable) (k : String)
    (f : EpiViewEntry → EpiViewEntry) (k' : String) (h : k' ≠ k) :
    (t.modify k f).data k' = t.data k' := by
  rw [EpiViewTable.data_modify]
  cases hd : t.data k <;> simp [h]

theorem EpiViewTable.modify_data_self (t : EpiViewTable) (k : String)
    (f : EpiViewEntry → EpiViewEntry) :
    (t.modify k f).data k = (t.data k).map f := by
  rw [EpiViewTable.data_modify]
  cases hd : t.data k <;> simp

theorem EpiViewTable.ensure_minDate (t : EpiViewTable) (k : String) (e : EpiViewEntry) :
    (t.ensure k e).minDate = t.minDate := by
  unfold EpiViewTable.ensure
  cases t.data k <;> rfl

theorem EpiViewTable.ensure_maxDate (t : EpiViewTable) (k : String) (e : EpiViewEntry) :
    (t.ensure k e).maxDate = t.maxDate := by
  unfold EpiViewTable.ensure
  cases t.data k <;> rfl

theorem EpiViewTable.modify_minDate (t : EpiViewTable) (k : String)
    (f : EpiViewEntry → EpiViewEntry) : (t.modify k f).minDate = t.minDate := by
  unfold EpiViewTable.modify
  cases t.data k <;> rfl

theorem EpiViewTable.modify_maxDate (t : EpiViewTable) (k : String)
    (f : EpiViewEntry → EpiViewEntry) : (t.modify k f).maxDate = t.maxDate := by
  unfold EpiViewTable.modify
  cases t.data k <;> rfl

theorem EpiViewTable.eq_of_parts (t1 t2 : EpiViewTable)
    (h : ∀ k, t1.data k = t2.data k) (h2 : t1.minDate = t2.minDate)
    (h3 : t1.maxDate = t2.maxDate) : t1 = t2 := by
  obtain ⟨d1, m1, M1⟩ := t1
  obtain ⟨d2, m2, M2⟩ := t2
  simp only at h h2 h3
  rw [show d1 = d2 from funext h, h2, h3]
theorem EpiViewTable.ensure_of_some (t : EpiViewTable) (k : String)
    (e e0 : EpiViewEntry) (h : t.data k = some e0) : t.ensure k e = t := by
  unfold EpiViewTable.ensure
  rw [h]

namespace EpiViewTable_COVID19_UnitedStates

theorem applyPopHits_idem (e : EpiViewEntry) (hs : List PopRow) :
    applyPopHits (applyPopHits e hs) hs = applyPopHits e hs := by
  simp [applyPopHits_eq, lastD_lastD]

theorem popLoop_inv (rows : List PopRow) (t : EpiViewTable) (k : String)
    (e : EpiViewEntry) (h : (rows.foldl popStep t).data k = some e) :
    ∃ base, e = applyPopHits base (popHits rows k) := by
  rw [popLoop_data] at h
  split at h
  · exact ⟨_, ((Option.some.injEq _ _).mp h).symm⟩
  · split at h
    · cases h
    · exact ⟨_, ((Option.some.injEq _ _).mp h).symm⟩

theorem popLoop_none_inv (rows : List PopRow) (t : EpiViewTable) (k : String)
    (h : (rows.foldl popStep t).data k = none) :
    popHits rows k = [] ∧ t.data k = none := by
  rw [popLoop_data] at h
  split at h
  · cases h
  · next heq =>
    split at h
    · next hh => exact ⟨hh, heq⟩
    · cases h

theorem popLoop_stable (rows : List PopRow) (t t2 : EpiViewTable) (k : String)
    (e : EpiViewEntry) (h1 : (rows.foldl popStep t).data k = some e)
    (h2 : t2.data k = some e) : (rows.foldl popStep t2).data k = some e := by
  obtain ⟨base, hb⟩ := popLoop_inv rows t k e h1
  rw [popLoop_data, h2, hb]
  simp [applyPopHits_idem]

theorem popLoop_minDate (rows : List PopRow) : ∀ t : EpiViewTable,
    (rows.foldl popStep t).minDate = t.minDate ∧
    (rows.foldl popStep t).maxDate = t.maxDate := by
  induction rows with
  | nil => intro t; exact ⟨rfl, rfl⟩
  | cons r rest ih =>
    intro t
    rw [List.foldl_cons]
    constructor
    · rw [(ih _).1]
      show ((t.ensure _ _).modify _ _).minDate = t.minDate
      rw [EpiViewTable.modify_minDate, EpiViewTable.ensure_minDate]
    · rw [(ih _).2]
      show ((t.ensure _ _).modify _ _).maxDate = t.maxDate
      rw [EpiViewTable.modify_maxDate, EpiViewTable.ensure_maxDate]
end EpiViewTable_COVID19_UnitedStates
namespace EpiViewTable_COVID19_UnitedStates

theorem popLoop_some (rows : List PopRow) (t : EpiViewTable) (k : String)
    (e : EpiViewEntry) (h : t.data k = some e) :
    (rows.foldl popStep t).data k = some (applyPopHits e (popHits rows k)) := by
  rw [popLoop_data, h]

theorem addPopulation_idem (t : EpiViewTable) (rows : List PopRow) (t' : EpiViewTable)
    (h : addPopulation t rows = some t') : addPopulation t' rows = some t' := by
  simp only [addPopulation] at h ⊢
  split at h
  next e47 e81 e05 e85 heq47 heq81 heq05 heq85 =>
    replace h := (Option.some.injEq _ _).mp h
    set t1 : EpiViewTable := rows.foldl popStep t with ht1
    set t2 : EpiViewTable := t1.ensure "36000"
      (EpiViewEntry.new "New York City" "New York") with ht2
    have hnyc2 : t2.data "36000" =
        some ((t1.data "36000").getD (EpiViewEntry.new "New York City" "New York")) := by
      rw [ht2, EpiViewTable.ensure_data_self]
    set eN2 : EpiViewEntry :=
      (t1.data "36000").getD (EpiViewEntry.new "New York City" "New York") with heN2
    set S : ℚ := 36061 + e47.population + e81.population + e05.population +
      e85.population with hS
    have hput : t' = t2.modify "36000" fun e => { e with population := S } := h.symm
    have hother : ∀ k, k ≠ "36000" → t'.data k = t2.data k := by
      intro k hk
      rw [hput, EpiViewTable.modify_data_other _ _ _ _ hk]
    have hself : t'.data "36000" = some { eN2 with population := S } := by
      rw [hput, EpiViewTable.modify_data_self, hnyc2]
      rfl
    have hens : ∀ k, k ≠ "36000" → t2.data k = t1.data k := by
      intro k hk
      rw [ht2, EpiViewTable.ensure_data_other _ _ _ _ hk]
    have hT47 : (rows.foldl popStep t').data "36047" = some e47 :=
      popLoop_stable rows t t' _ _ ((hens _ (by decide)).symm.trans heq47)
        ((hother _ (by decide)).trans heq47)
    have hT81 : (rows.foldl popStep t').data "36081" = some e81 :=
      popLoop_stable rows t t' _ _ ((hens _ (by decide)).symm.trans heq81)
        ((hother _ (by decide)).trans heq81)
    have hT05 : (rows.foldl popStep t').data "36005" = some e05 :=
      popLoop_stable rows t t' _ _ ((hens _ (by decide)).symm.trans heq05)
        ((hother _ (by decide)).trans heq05)
    have hT85 : (rows.foldl popStep t').data "36085" = some e85 :=
      popLoop_stable rows t t' _ _ ((hens _ (by decide)).symm.trans heq85)
        ((hother _ (by decide)).trans heq85)
    set T1 : EpiViewTable := rows.foldl popStep t' with hT1
    have hT1nyc : T1.data "36000" =
        some (applyPopHits { eN2 with population := S } (popHits rows "36000")) :=
      popLoop_some rows t' _ _ hself
    have hT2T1 : T1.ensure "36000" (EpiViewEntry.new "New York City" "New York") = T1 :=
      EpiViewTable.ensure_of_some _ _ _ _ hT1nyc
    rw [hT2T1, hT47, hT81, hT05, hT85]
    refine congrArg some (EpiViewTable.eq_of_parts _ _ ?_ ?_ ?_)
    · intro k
      by_cases hk : k = "36000"
      · subst hk
        rw [EpiViewTable.modify_data_self, hT1nyc, hself]
        simp [applyPopHits_eq]
      · rw [EpiViewTable.modify_data_other _ _ _ _ hk, hT1]
        cases hk' : t'.data k with
        | some e =>
          have h1 : t1.data k = some e := by
            rw [← hens k hk, ← hother k hk, hk']
          exact popLoop_stable rows t t' k e (ht1 ▸ h1) hk'
        | none =>
          rw [popLoop_data, hk']
          obtain ⟨hhits, -⟩ := popLoop_none_inv rows t k (by
            rw [← ht1]
            rw [← hens k hk, ← hother k hk, hk'])
          rw [hhits]
    · rw [EpiViewTable.modify_minDate, hT1, (popLoop_minDate rows t').1]
    · rw [EpiViewTable.modify_maxDate, hT1, (popLoop_minDate rows t').2]
  next =>
    cases h

end EpiViewTable_COVID19_UnitedStates
/-! Association-list facts for the counts dictionary -/

/-- `find?` by key. -/
def countsFind (c : CountsMap) (k : String) : Option (String × CountsRec) :=
  c.find? fun p => p.1 = k

/-- Value at a key. -/
def valAt (c : CountsMap) (k : String) : Option CountsRec :=
  (countsFind c k).map Prod.snd

theorem countsKeys_countsSet (c : CountsMap) (k : String) (v : CountsRec) :
    countsKeys (countsSet c k v) =
      if k ∈ countsKeys c then countsKeys c else countsKeys c ++ [k] := by
  induction c with
  | nil => simp [countsSet, countsKeys]
  | cons p rest ih =>
    by_cases hp : p.1 = k
    · unfold countsSet
      rw [if_pos hp]
      have hin : k ∈ countsKeys (p :: rest) := by
        rw [show countsKeys (p :: rest) = p.1 :: countsKeys rest from rfl, hp]
        exact List.mem_cons_self _ _
      rw [if_pos hin]
      show k :: countsKeys rest = p.1 :: countsKeys rest
      rw [hp]
    · unfold countsSet
      rw [if_neg hp]
      show p.1 :: countsKeys (countsSet rest k v) = _
      rw [ih]
      by_cases hk : k ∈ countsKeys rest
      · rw [if_pos hk, if_pos (by
          rw [show countsKeys (p :: rest) = p.1 :: countsKeys rest from rfl]
          exact List.mem_cons_of_mem _ hk)]
        rfl
      · rw [if_neg hk]
        have hnot : ¬k ∈ countsKeys (p :: rest) := by
          intro hmem2
          rw [show countsKeys (p :: rest) = p.1 :: countsKeys rest from rfl] at hmem2
          rcases List.mem_cons.mp hmem2 with hc | hc
          · exact hp hc.symm
          · exact hk hc
        rw [if_neg hnot]
        rfl

theorem countsFind_countsSet_self (c : CountsMap) (k : String) (v : CountsRec) :
    countsFind (countsSet c k v) k = some (k, v) := by
  induction c with
  | nil => simp [countsSet, countsFind, List.find?]
  | cons p rest ih =>
    by_cases hp : p.1 = k
    · unfold countsSet
      rw [if_pos hp]
      simp [countsFind, List.find?]
    · unfold countsSet
      rw [if_neg hp]
      show List.find? _ (p :: countsSet rest k v) = _
      rw [List.find?_cons_of_neg _ (by simpa using hp)]
      exact ih

theorem countsFind_countsSet_other (c : CountsMap) (k : String) (v : CountsRec)
    (k' : String) (h : k' ≠ k) :
    countsFind (countsSet c k v) k' = countsFind c k' := by
  induction c with
  | nil =>
    show countsFind [(k, v)] k' = countsFind [] k'
    unfold countsFind
    rw [show (([(k, v)] : CountsMap).find? fun p => p.1 = k') =
        (if k = k' then some (k, v) else none) from by
      by_cases hkk : k = k' <;> simp [List.find?, hkk]]
    rw [if_neg (fun hc => h hc.symm)]
    rfl
  | cons p rest ih =>
    by_cases hp : p.1 = k
    · unfold countsSet
      rw [if_pos hp]
      unfold countsFind
      rw [show ((k, v) :: rest : CountsMap).find? (fun p => p.1 = k') =
          if k = k' then some (k, v) else rest.find? (fun p => p.1 = k') from by
        by_cases hkk : k = k' <;> simp [List.find?, hkk]]
      rw [show (p :: rest : CountsMap).find? (fun p => p.1 = k') =
          if p.1 = k' then some p else rest.find? (fun p => p.1 = k') from by
        by_cases hpk : p.1 = k' <;> simp [List.find?, hpk]]
      rw [if_neg (fun hc => h hc.symm), if_neg (fun hc => h (hp ▸ hc).symm)]
    · unfold countsSet
      rw [if_neg hp]
      unfold countsFind
      rw [show (p :: countsSet rest k v : CountsMap).find? (fun q => q.1 = k') =
          if p.1 = k' then some p else (countsSet rest k v).find? (fun q => q.1 = k') from by
        by_cases hpk : p.1 = k' <;> simp [List.find?, hpk]]
      rw [show (p :: rest : CountsMap).find? (fun q => q.1 = k') =
          if p.1 = k' then some p else rest.find? (fun q => q.1 = k') from by
        by_cases hpk : p.1 = k' <;> simp [List.find?, hpk]]
      by_cases hpk : p.1 = k'
      · rw [if_pos hpk, if_pos hpk]
      · rw [if_neg hpk, if_neg hpk]
        exact ih
theorem countsKeys_nodup_countsSet (c : CountsMap) (k : String) (v : CountsRec)
    (h : (countsKeys c).Nodup) : (countsKeys (countsSet c k v)).Nodup := by
  rw [countsKeys_countsSet]
  by_cases hk : k ∈ countsKeys c
  · rw [if_pos hk]; exact h
  · rw [if_neg hk]
    rw [List.nodup_append]
    exact ⟨h, List.nodup_singleton k, by
      intro a ha hb
      rw [List.mem_singleton] at hb
      exact hk (hb ▸ ha)⟩

theorem countsFind_eq_none (c : CountsMap) (k : String)
    (h : ¬k ∈ countsKeys c) : countsFind c k = none := by
  unfold countsFind
  rw [List.find?_eq_none]
  intro p hp
  simp only [decide_eq_true_eq]
  intro hc
  exact h (hc ▸ List.mem_map_of_mem Prod.fst hp)

/-- Extensionality for counts dictionaries with unique keys: equal key
sequences and equal lookups force equal lists. -/
theorem countsMap_ext (c1 : CountsMap) : ∀ c2 : CountsMap,
    (countsKeys c1).Nodup → countsKeys c1 = countsKeys c2 →
    (∀ k, countsFind c1 k = countsFind c2 k) → c1 = c2 := by
  induction c1 with
  | nil =>
    intro c2 _ hkeys _
    cases c2 with
    | nil => rfl
    | cons q r2 => cases hkeys
  | cons p r1 ih =>
    intro c2 hnd hkeys hfind
    cases c2 with
    | nil => cases hkeys
    | cons q r2 =>
      have hk : p.1 = q.1 := by
        have := congrArg (fun l => l.headD "") hkeys
        simpa [countsKeys] using this
      have hv : p = q := by
        have h1 := hfind p.1
        rw [show countsFind (p :: r1) p.1 = some p from by
          unfold countsFind
          rw [List.find?_cons_of_pos _ (by simp)],
          show countsFind (q :: r2) p.1 = some q from by
            unfold countsFind
            rw [List.find?_cons_of_pos _ (by simp [hk])]] at h1
        exact (Option.some.injEq _ _).mp h1
      have hnd1 : (countsKeys r1).Nodup := (List.nodup_cons.mp hnd).2
      have hnotin : ¬p.1 ∈ countsKeys r1 := (List.nodup_cons.mp hnd).1
      have hnotin2 : ¬p.1 ∈ countsKeys r2 := by
        have htail := congrArg List.tail hkeys
        simp only [countsKeys, List.map_cons, List.tail_cons] at htail
        rw [show countsKeys r2 = List.map Prod.fst r2 from rfl, ← htail]
        exact hnotin
      have htails : ∀ k, countsFind r1 k = countsFind r2 k := by
        intro k
        by_cases hkk : p.1 = k
        · subst hkk
          rw [countsFind_eq_none r1 p.1 hnotin, countsFind_eq_none r2 p.1 hnotin2]
        · have h1 := hfind k
          rw [show countsFind (p :: r1) k = countsFind r1 k from by
            unfold countsFind
            rw [List.find?_cons_of_neg _ (by simpa using hkk)],
            show countsFind (q :: r2) k = countsFind r2 k from by
              unfold countsFind
              rw [List.find?_cons_of_neg _ (by simpa [← hk] using hkk)]] at h1
          exact h1
      have hkeystail : countsKeys r1 = countsKeys r2 := by
        have htail := congrArg List.tail hkeys
        simpa [countsKeys] using htail
      rw [hv, ih r2 hnd1 hkeystail htails]
namespace EpiViewTable_COVID19_UnitedStates

/-- The last record a run of rows writes at a date key, starting from a
default. -/
def lastRec (hs : List CountRow) (k : String) (d : Option CountsRec) :
    Option CountsRec :=
  hs.foldl (fun a r => if r.date = k then some ⟨r.cases, r.deaths⟩ else a) d

theorem lastRec_nil (k : String) (d : Option CountsRec) : lastRec [] k d = d := rfl

theorem lastRec_cons (r : CountRow) (hs : List CountRow) (k : String)
    (d : Option CountsRec) :
    lastRec (r :: hs) k d =
      lastRec hs k (if r.date = k then some ⟨r.cases, r.deaths⟩ else d) := rfl

theorem lastRec_shape (hs : List CountRow) (k : String) :
    (∀ d, lastRec hs k d = d) ∨ (∃ v, ∀ d, lastRec hs k d = some v) := by
  induction hs with
  | nil => exact Or.inl fun d => rfl
  | cons r rest ih =>
    by_cases hr : r.date = k
    · rcases ih with h | ⟨v, h⟩
      · refine Or.inr ⟨⟨r.cases, r.deaths⟩, fun d => ?_⟩
        rw [lastRec_cons, if_pos hr, h]
      · exact Or.inr ⟨v, fun d => by rw [lastRec_cons, h]⟩
    · rcases ih with h | ⟨v, h⟩
      · exact Or.inl fun d => by rw [lastRec_cons, if_neg hr, h]
      · exact Or.inr ⟨v, fun d => by rw [lastRec_cons, h]⟩

theorem lastRec_lastRec (hs : List CountRow) (k : String) (d : Option CountsRec) :
    lastRec hs k (lastRec hs k d) = lastRec hs k d := by
  rcases lastRec_shape hs k with h | ⟨v, h⟩
  · rw [h, h]
  · rw [h, h]

theorem valAt_applyCountHitsMap (hs : List CountRow) : ∀ (c : CountsMap) (k : String),
    valAt (applyCountHitsMap c hs) k = lastRec hs k (valAt c k) := by
  induction hs with
  | nil => intro c k; rfl
  | cons r rest ih =>
    intro c k
    show valAt (applyCountHitsMap (countsSet c r.date ⟨r.cases, r.deaths⟩) rest) k = _
    rw [ih, lastRec_cons]
    congr 1
    by_cases hr : r.date = k
    · rw [if_pos hr, hr]
      unfold valAt
      rw [countsFind_countsSet_self]
      rfl
    · rw [if_neg hr]
      unfold valAt
      rw [countsFind_countsSet_other _ _ _ _ (fun hc => hr hc.symm)]

theorem countsKeys_applyCountHitsMap_nodup (hs : List CountRow) :
    ∀ c : CountsMap, (countsKeys c).Nodup →
      (countsKeys (applyCountHitsMap c hs)).Nodup := by
  induction hs with
  | nil => intro c h; exact h
  | cons r rest ih =>
    intro c h
    exact ih _ (countsKeys_nodup_countsSet _ _ _ h)

theorem mem_countsKeys_applyCountHitsMap (hs : List CountRow) :
    ∀ (c : CountsMap) (k : String), k ∈ countsKeys c →
      k ∈ countsKeys (applyCountHitsMap c hs) := by
  induction hs with
  | nil => intro c k h; exact h
  | cons r rest ih =>
    intro c k h
    refine ih _ k ?_
    rw [countsKeys_countsSet]
    by_cases hr : r.date ∈ countsKeys c
    · rw [if_pos hr]; exact h
    · rw [if_neg hr]; exact List.mem_append_left _ h

theorem dates_mem_applyCountHitsMap (hs : List CountRow) :
    ∀ (c : CountsMap) (r : CountRow), r ∈ hs →
      r.date ∈ countsKeys (applyCountHitsMap c hs) := by
  induction hs with
  | nil => intro c r h; cases h
  | cons r0 rest ih =>
    intro c r h
    rcases List.mem_cons.mp h with h | h
    · subst h
      show r.date ∈ countsKeys
        (applyCountHitsMap (countsSet c r.date ⟨r.cases, r.deaths⟩) rest)
      apply mem_countsKeys_applyCountHitsMap
      rw [countsKeys_countsSet]
      by_cases hr : r.date ∈ countsKeys c
      · rw [if_pos hr]; exact hr
      · rw [if_neg hr]
        exact List.mem_append_right _ (List.mem_singleton.mpr rfl)
    · exact ih _ r h

theorem countsKeys_applyCountHitsMap_stable (hs : List CountRow) :
    ∀ c : CountsMap, (∀ r ∈ hs, r.date ∈ countsKeys c) →
      countsKeys (applyCountHitsMap c hs) = countsKeys c := by
  induction hs with
  | nil => intro c _; rfl
  | cons r rest ih =>
    intro c h
    show countsKeys (applyCountHitsMap (countsSet c r.date ⟨r.cases, r.deaths⟩) rest) = _
    have hmem : r.date ∈ countsKeys c := h r (List.mem_cons_self _ _)
    have hkeys : countsKeys (countsSet c r.date ⟨r.cases, r.deaths⟩) = countsKeys c := by
      rw [countsKeys_countsSet, if_pos hmem]
    rw [ih _ (by
      intro r' hr'
      rw [hkeys]
      exact h r' (List.mem_cons_of_mem _ hr')), hkeys]

theorem countsFind_eq_of_valAt (c : CountsMap) (k : String) :
    countsFind c k = (valAt c k).map fun v => (k, v) := by
  unfold valAt
  cases hf : countsFind c k with
  | none => rfl
  | some p =>
    have hp := List.find?_some hf
    simp only [decide_eq_true_eq] at hp
    simp [← hp]

theorem applyCountHitsMap_idem (c : CountsMap) (hs : List CountRow)
    (hnd : (countsKeys c).Nodup) :
    applyCountHitsMap (applyCountHitsMap c hs) hs = applyCountHitsMap c hs := by
  apply countsMap_ext
  · exact countsKeys_applyCountHitsMap_nodup hs _
      (countsKeys_applyCountHitsMap_nodup hs c hnd)
  · exact countsKeys_applyCountHitsMap_stable hs _
      (fun r hr => dates_mem_applyCountHitsMap hs c r hr)
  · intro k
    rw [countsFind_eq_of_valAt, countsFind_eq_of_valAt (applyCountHitsMap c hs)]
    rw [valAt_applyCountHitsMap, valAt_applyCountHitsMap, lastRec_lastRec]

end EpiViewTable_COVID19_UnitedStates
namespace EpiViewTable_COVID19_UnitedStates

theorem applyCountHits_idem (e : EpiViewEntry) (hs : List CountRow)
    (hnd : (countsKeys e.counts).Nodup) :
    applyCountHits (applyCountHits e hs) hs = applyCountHits e hs := by
  rw [applyCountHits_eq, applyCountHits_eq]
  simp [applyCountHitsMap_idem e.counts hs hnd]

theorem countsLoop_inv (rows : List CountRow) (t : EpiViewTable) (k : String)
    (e : EpiViewEntry)
    (hwf : ∀ e0, t.data k = some e0 → (countsKeys e0.counts).Nodup)
    (h : (rows.foldl countsStep t).data k = some e) :
    ∃ base, (countsKeys base.counts).Nodup ∧
      e = applyCountHits base (countHits rows k) := by
  rw [countsLoop_data] at h
  split at h
  · next e0 he0 => exact ⟨e0, hwf e0 he0, ((Option.some.injEq _ _).mp h).symm⟩
  · split at h
    · cases h
    · next r rest hh =>
      refine ⟨EpiViewEntry.new (r.county ++ " County") r.state, ?_,
        ((Option.some.injEq _ _).mp h).symm⟩
      simp [EpiViewEntry.new, countsKeys]

theorem countsLoop_none_inv (rows : List CountRow) (t : EpiViewTable) (k : String)
    (h : (rows.foldl countsStep t).data k = none) :
    countHits rows k = [] ∧ t.data k = none := by
  rw [countsLoop_data] at h
  split at h
  · cases h
  · next heq =>
    split at h
    · next hh => exact ⟨hh, heq⟩
    · cases h

theorem countsLoop_stable (rows : List CountRow) (t t2 : EpiViewTable) (k : String)
    (e : EpiViewEntry)
    (hwf : ∀ e0, t.data k = some e0 → (countsKeys e0.counts).Nodup)
    (h1 : (rows.foldl countsStep t).data k = some e)
    (h2 : t2.data k = some e) : (rows.foldl countsStep t2).data k = some e := by
  obtain ⟨base, hnd, hb⟩ := countsLoop_inv rows t k e hwf h1
  rw [countsLoop_data, h2, hb]
  simp [applyCountHits_idem base (countHits rows k) hnd]

theorem countsFold_fst (rows : List CountRow) : ∀ (t : EpiViewTable) (a b : String),
    (rows.foldl (fun acc row => (countsStep acc.1 row, jsMinStep acc.2.1 row.date,
        jsMaxStep acc.2.2 row.date)) (t, a, b)).1 = rows.foldl countsStep t := by
  induction rows with
  | nil => intro t a b; rfl
  | cons r rest ih =>
    intro t a b
    simp only [List.foldl]
    exact ih _ _ _

theorem addCounts_data (t : EpiViewTable) (rows : List CountRow) (k : String) :
    (addCounts t rows).data k = (rows.foldl countsStep t).data k := by
  show (rows.foldl (fun acc row => (countsStep acc.1 row, jsMinStep acc.2.1 row.date,
      jsMaxStep acc.2.2 row.date)) (t, "", "")).1.data k = _
  rw [countsFold_fst]

theorem addCounts_minDate (t : EpiViewTable) (rows : List CountRow) :
    (addCounts t rows).minDate =
      parseDate ((rows.map CountRow.date).foldl jsMinStep "") := by
  show parseDate ((rows.foldl (fun acc row => (countsStep acc.1 row,
    jsMinStep acc.2.1 row.date, jsMaxStep acc.2.2 row.date)) (t, "", "")).2.1) = _
  rw [(countsFold_components rows t "" "").1]

theorem addCounts_maxDate (t : EpiViewTable) (rows : List CountRow) :
    (addCounts t rows).maxDate =
      parseDate ((rows.map CountRow.date).foldl jsMaxStep "") := by
  show parseDate ((rows.foldl (fun acc row => (countsStep acc.1 row,
    jsMinStep acc.2.1 row.date, jsMaxStep acc.2.2 row.date)) (t, "", "")).2.2) = _
  rw [(countsFold_components rows t "" "").2]

theorem addCounts_idem (t : EpiViewTable) (rows : List CountRow)
    (hwf : ∀ k e, t.data k = some e → (countsKeys e.counts).Nodup) :
    addCounts (addCounts t rows) rows = addCounts t rows := by
  apply EpiViewTable.eq_of_parts
  · intro k
    rw [addCounts_data, addCounts_data]
    cases h1 : (rows.foldl countsStep t).data k with
    | some e =>
      have h2 : (addCounts t rows).data k = some e := by rw [addCounts_data, h1]
      exact countsLoop_stable rows t _ k e (fun e0 he0 => hwf k e0 he0) h1 h2
    | none =>
      obtain ⟨hhits, -⟩ := countsLoop_none_inv rows t k h1
      rw [countsLoop_data, addCounts_data, h1, hhits]
  · rw [addCounts_minDate, addCounts_minDate]
  · rw [addCounts_maxDate, addCounts_maxDate]

end EpiViewTable_COVID19_UnitedStates
namespace EpiViewTable_COVID19_UnitedStates

/-- Accumulated area contribution of a run of features. -/
def areaFold (hs : List BoundFeature) (a : ℚ) : ℚ :=
  hs.foldl (fun a f => a + f.ALAND / sqMetersPerSqMile) a

/-- Accumulated polygon pushes of a run of features. -/
def boundsFold (hs : List BoundFeature) (b : List (List Coord)) : List (List Coord) :=
  hs.foldl (fun b f => b ++ featPolys f) b

theorem applyBoundHits_eq (hs : List BoundFeature) : ∀ e : EpiViewEntry,
    applyBoundHits e hs =
      { e with area := areaFold hs e.area, bounds := boundsFold hs e.bounds } := by
  induction hs with
  | nil => intro e; rfl
  | cons f rest ih =>
    intro e
    show applyBoundHits
      { e with area := e.area + f.ALAND / sqMetersPerSqMile,
               bounds := e.bounds ++ featPolys f } rest = _
    rw [ih]
    rfl

/-! Field projections through the three loops -/

theorem popLoop_popAt (rows : List PopRow) (t : EpiViewTable) (k : String) :
    popAt (rows.foldl popStep t) k =
      lastD ((popHits rows k).map PopRow.POPESTIMATE2018) (popAt t k) := by
  unfold popAt
  rw [popLoop_data]
  cases h : t.data k with
  | some e => simp [applyPopHits_eq]
  | none =>
    cases hh : popHits rows k with
    | nil => simp [lastD]
    | cons r rest =>
      simp [applyPopHits_eq, hh, EpiViewEntry.new]

theorem popLoop_fields (rows : List PopRow) (t : EpiViewTable) (k : String) :
    areaAt (rows.foldl popStep t) k = areaAt t k ∧
    boundsAt (rows.foldl popStep t) k = boundsAt t k ∧
    countsAt (rows.foldl popStep t) k = countsAt t k := by
  unfold areaAt boundsAt countsAt
  rw [popLoop_data]
  cases h : t.data k with
  | some e => simp [applyPopHits_eq]
  | none =>
    cases hh : popHits rows k with
    | nil => simp
    | cons r rest => simp [applyPopHits_eq, hh, EpiViewEntry.new]

theorem boundsLoop_areaAt (hs : List BoundFeature) (t : EpiViewTable) (k : String) :
    areaAt (hs.foldl boundsStep t) k = areaFold (boundHits hs k) (areaAt t k) := by
  unfold areaAt
  rw [boundsLoop_data]
  cases h : t.data k with
  | some e => simp [applyBoundHits_eq]
  | none =>
    cases hh : boundHits hs k with
    | nil => simp [areaFold]
    | cons f rest => simp [applyBoundHits_eq, hh, EpiViewEntry.new]

theorem boundsLoop_boundsAt (hs : List BoundFeature) (t : EpiViewTable) (k : String) :
    boundsAt (hs.foldl boundsStep t) k = boundsFold (boundHits hs k) (boundsAt t k) := by
  unfold boundsAt
  rw [boundsLoop_data]
  cases h : t.data k with
  | some e => simp [applyBoundHits_eq]
  | none =>
    cases hh : boundHits hs k with
    | nil => simp [boundsFold]
    | cons f rest => simp [applyBoundHits_eq, hh, EpiViewEntry.new]

theorem boundsLoop_fields (hs : List BoundFeature) (t : EpiViewTable) (k : String) :
    popAt (hs.foldl boundsStep t) k = popAt t k ∧
    countsAt (hs.foldl boundsStep t) k = countsAt t k := by
  unfold popAt countsAt
  rw [boundsLoop_data]
  cases h : t.data k with
  | some e => simp [applyBoundHits_eq]
  | none =>
    cases hh : boundHits hs k with
    | nil => simp
    | cons f rest => simp [applyBoundHits_eq, hh, EpiViewEntry.new]

theorem countsLoop_countsAt (rows : List CountRow) (t : EpiViewTable) (k : String) :
    countsAt (rows.foldl countsStep t) k =
      applyCountHitsMap (countsAt t k) (countHits rows k) := by
  unfold countsAt
  rw [countsLoop_data]
  cases h : t.data k with
  | some e => simp [applyCountHits_eq]
  | none =>
    cases hh : countHits rows k with
    | nil => simp [applyCountHitsMap]
    | cons r rest => simp [applyCountHits_eq, hh, EpiViewEntry.new]

theorem countsLoop_fields (rows : List CountRow) (t : EpiViewTable) (k : String) :
    popAt (rows.foldl countsStep t) k = popAt t k ∧
    areaAt (rows.foldl countsStep t) k = areaAt t k ∧
    boundsAt (rows.foldl countsStep t) k = boundsAt t k := by
  unfold popAt areaAt boundsAt
  rw [countsLoop_data]
  cases h : t.data k with
  | some e => simp [applyCountHits_eq]
  | none =>
    cases hh : countHits rows k with
    | nil => simp
    | cons r rest => simp [applyCountHits_eq, hh, EpiViewEntry.new]

end EpiViewTable_COVID19_UnitedStates
theorem popAt_of_some (t : EpiViewTable) (k : String) (e : EpiViewEntry)
    (h : t.data k = some e) : popAt t k = e.population := by
  unfold popAt
  rw [h]
  rfl

theorem fieldsAt_ensure_new (t : EpiViewTable) (k0 a b k : String) :
    popAt (t.ensure k0 (EpiViewEntry.new a b)) k = popAt t k ∧
    areaAt (t.ensure k0 (EpiViewEntry.new a b)) k = areaAt t k ∧
    boundsAt (t.ensure k0 (EpiViewEntry.new a b)) k = boundsAt t k ∧
    countsAt (t.ensure k0 (EpiViewEntry.new a b)) k = countsAt t k := by
  unfold popAt areaAt boundsAt countsAt
  rw [EpiViewTable.data_ensure]
  cases h : t.data k0 with
  | some e => exact ⟨rfl, rfl, rfl, rfl⟩
  | none =>
    by_cases hk : k = k0
    · subst hk
      rw [h]
      simp [EpiViewEntry.new]
    · simp [hk]

namespace EpiViewTable_COVID19_UnitedStates

/-- The population each key ends with after `addPopulation` over a table
with all-zero populations. -/
def popPred (rows : List PopRow) (k : String) : ℚ :=
  if k = "36000" then
    36061 + lastD ((popHits rows "36047").map PopRow.POPESTIMATE2018) 0 +
      lastD ((popHits rows "36081").map PopRow.POPESTIMATE2018) 0 +
      lastD ((popHits rows "36005").map PopRow.POPESTIMATE2018) 0 +
      lastD ((popHits rows "36085").map PopRow.POPESTIMATE2018) 0
  else lastD ((popHits rows k).map PopRow.POPESTIMATE2018) 0

theorem addPopulation_fields (t : EpiViewTable) (rows : List PopRow)
    (t' : EpiViewTable) (h : addPopulation t rows = some t') (k : String) :
    areaAt t' k = areaAt t k ∧ boundsAt t' k = boundsAt t k ∧
    countsAt t' k = countsAt t k := by
  simp only [addPopulation] at h
  split at h
  next e47 e81 e05 e85 heq47 heq81 heq05 heq85 =>
    replace h := (Option.some.injEq _ _).mp h
    subst h
    unfold areaAt boundsAt countsAt
    rw [EpiViewTable.data_modify]
    have hens := fieldsAt_ensure_new (rows.foldl popStep t) "36000"
      "New York City" "New York" k
    cases hd : ((rows.foldl popStep t).ensure "36000"
        (EpiViewEntry.new "New York City" "New York")).data "36000" with
    | none =>
      refine ⟨?_, ?_, ?_⟩ <;>
        [exact (hens.2.1.trans (popLoop_fields rows t k).1);
         exact (hens.2.2.1.trans (popLoop_fields rows t k).2.1);
         exact (hens.2.2.2.trans (popLoop_fields rows t k).2.2)]
    | some eN =>
      by_cases hk : k = "36000"
      · subst hk
        simp only [if_pos rfl]
        have h1 : areaAt ((rows.foldl popStep t).ensure "36000"
            (EpiViewEntry.new "New York City" "New York")) "36000" = eN.area := by
          unfold areaAt
          rw [hd]
          rfl
        have h2 : boundsAt ((rows.foldl popStep t).ensure "36000"
            (EpiViewEntry.new "New York City" "New York")) "36000" = eN.bounds := by
          unfold boundsAt
          rw [hd]
          rfl
        have h3 : countsAt ((rows.foldl popStep t).ensure "36000"
            (EpiViewEntry.new "New York City" "New York")) "36000" = eN.counts := by
          unfold countsAt
          rw [hd]
          rfl
        refine ⟨?_, ?_, ?_⟩
        · exact (h1.symm.trans (hens.2.1.trans (popLoop_fields rows t _).1)).symm ▸ rfl
        · exact (h2.symm.trans (hens.2.2.1.trans (popLoop_fields rows t _).2.1)).symm ▸ rfl
        · exact (h3.symm.trans (hens.2.2.2.trans (popLoop_fields rows t _).2.2)).symm ▸ rfl
      · simp only [if_neg hk]
        exact ⟨hens.2.1.trans (popLoop_fields rows t k).1,
          hens.2.2.1.trans (popLoop_fields rows t k).2.1,
          hens.2.2.2.trans (popLoop_fields rows t k).2.2⟩
  next => cases h

end EpiViewTable_COVID19_UnitedStates
namespace EpiViewTable_COVID19_UnitedStates

theorem popAt_ensure_new (t : EpiViewTable) (k0 a b k : String) :
    popAt (t.ensure k0 (EpiViewEntry.new a b)) k = popAt t k :=
  (fieldsAt_ensure_new t k0 a b k).1

theorem addPopulation_popAt (t : EpiViewTable) (rows : List PopRow)
    (t' : EpiViewTable) (h : addPopulation t rows = some t')
    (hz : ∀ k2, popAt t k2 = 0) (k : String) :
    popAt t' k = popPred rows k := by
  simp only [addPopulation] at h
  split at h
  next e47 e81 e05 e85 heq47 heq81 heq05 heq85 =>
    replace h := (Option.some.injEq _ _).mp h
    subst h
    have hb : ∀ b : String, b ≠ "36000" →
        popAt ((rows.foldl popStep t).ensure "36000"
          (EpiViewEntry.new "New York City" "New York")) b =
        lastD ((popHits rows b).map PopRow.POPESTIMATE2018) 0 := by
      intro b hb0
      rw [popAt_ensure_new, popLoop_popAt, hz b]
    by_cases hk : k = "36000"
    · subst hk
      unfold popAt
      rw [EpiViewTable.modify_data_self]
      have hdnyc : ((rows.foldl popStep t).ensure "36000"
          (EpiViewEntry.new "New York City" "New York")).data "36000" =
          some (((rows.foldl popStep t).data "36000").getD
            (EpiViewEntry.new "New York City" "New York")) :=
        EpiViewTable.ensure_data_self _ _ _
      rw [hdnyc]
      show (36061 : ℚ) + e47.population + e81.population + e05.population +
          e85.population = popPred rows "36000"
      have h47 := (popAt_of_some _ _ _ heq47).symm.trans (hb "36047" (by decide))
      have h81 := (popAt_of_some _ _ _ heq81).symm.trans (hb "36081" (by decide))
      have h05 := (popAt_of_some _ _ _ heq05).symm.trans (hb "36005" (by decide))
      have h85 := (popAt_of_some _ _ _ heq85).symm.trans (hb "36085" (by decide))
      unfold popPred
      rw [if_pos rfl, h47, h81, h05, h85]
    · unfold popAt
      rw [EpiViewTable.modify_data_other _ _ _ _ hk]
      show popAt _ k = _
      rw [hb k hk]
      unfold popPred
      rw [if_neg hk]
  next => cases h

end EpiViewTable_COVID19_UnitedStates
theorem popAt_modify_of (t : EpiViewTable) (k0 : String)
    (f : EpiViewEntry → EpiViewEntry) (hf : ∀ e, (f e).population = e.population)
    (k : String) : popAt (t.modify k0 f) k = popAt t k := by
  unfold popAt
  rw [EpiViewTable.data_modify]
  split
  next e hd =>
    by_cases hk : k = k0
    · subst hk
      rw [if_pos rfl, hd]
      simp [hf]
    · rw [if_neg hk]
  next hd => rfl

theorem areaAt_modify_of (t : EpiViewTable) (k0 : String)
    (f : EpiViewEntry → EpiViewEntry) (hf : ∀ e, (f e).area = e.area)
    (k : String) : areaAt (t.modify k0 f) k = areaAt t k := by
  unfold areaAt
  rw [EpiViewTable.data_modify]
  split
  next e hd =>
    by_cases hk : k = k0
    · subst hk
      rw [if_pos rfl, hd]
      simp [hf]
    · rw [if_neg hk]
  next hd => rfl

theorem boundsAt_modify_of (t : EpiViewTable) (k0 : String)
    (f : EpiViewEntry → EpiViewEntry) (hf : ∀ e, (f e).bounds = e.bounds)
    (k : String) : boundsAt (t.modify k0 f) k = boundsAt t k := by
  unfold boundsAt
  rw [EpiViewTable.data_modify]
  split
  next e hd =>
    by_cases hk : k = k0
    · subst hk
      rw [if_pos rfl, hd]
      simp [hf]
    · rw [if_neg hk]
  next hd => rfl

theorem countsAt_modify_of (t : EpiViewTable) (k0 : String)
    (f : EpiViewEntry → EpiViewEntry) (hf : ∀ e, (f e).counts = e.counts)
    (k : String) : countsAt (t.modify k0 f) k = countsAt t k := by
  unfold countsAt
  rw [EpiViewTable.data_modify]
  split
  next e hd =>
    by_cases hk : k = k0
    · subst hk
      rw [if_pos rfl, hd]
      simp [hf]
    · rw [if_neg hk]
  next hd => rfl

theorem areaAt_modify_self (t : EpiViewTable) (k0 : String)
    (f : EpiViewEntry → EpiViewEntry) (e : EpiViewEntry) (h : t.data k0 = some e) :
    areaAt (t.modify k0 f) k0 = (f e).area := by
  unfold areaAt
  rw [EpiViewTable.data_modify, h]
  show (Option.map EpiViewEntry.area (if k0 = k0 then some (f e) else some e)).getD 0 =
    (f e).area
  rw [if_pos rfl]
  rfl

theorem boundsAt_modify_self (t : EpiViewTable) (k0 : String)
    (f : EpiViewEntry → EpiViewEntry) (e : EpiViewEntry) (h : t.data k0 = some e) :
    boundsAt (t.modify k0 f) k0 = (f e).bounds := by
  unfold boundsAt
  rw [EpiViewTable.data_modify, h]
  show (Option.map EpiViewEntry.bounds (if k0 = k0 then some (f e) else some e)).getD [] =
    (f e).bounds
  rw [if_pos rfl]
  rfl

theorem areaAt_modify_other (t : EpiViewTable) (k0 : String)
    (f : EpiViewEntry → EpiViewEntry) (k : String) (h : k ≠ k0) :
    areaAt (t.modify k0 f) k = areaAt t k := by
  unfold areaAt
  rw [EpiViewTable.modify_data_other _ _ _ _ h]

theorem boundsAt_modify_other (t : EpiViewTable) (k0 : String)
    (f : EpiViewEntry → EpiViewEntry) (k : String) (h : k ≠ k0) :
    boundsAt (t.modify k0 f) k = boundsAt t k := by
  unfold boundsAt
  rw [EpiViewTable.modify_data_other _ _ _ _ h]

namespace EpiViewTable_COVID19_UnitedStates

/-- The area each key ends with after `addBounds` over a table with
all-zero areas. -/
def areaPred (hs : List BoundFeature) (k : String) : ℚ :=
  if k = "36000" then
    36061 + areaFold (boundHits hs "36047") 0 + areaFold (boundHits hs "36081") 0 +
      areaFold (boundHits hs "36005") 0 + areaFold (boundHits hs "36085") 0
  else areaFold (boundHits hs k) 0

/-- The bounds each key ends with after `addBounds` over a table with
all-empty bounds. -/
def boundsPred (hs : List BoundFeature) (k : String) : List (List Coord) :=
  if k = "36000" then
    boundsFold (boundHits hs "36061") [] ++ boundsFold (boundHits hs "36047") [] ++
      boundsFold (boundHits hs "36081") [] ++ boundsFold (boundHits hs "36005") [] ++
      boundsFold (boundHits hs "36085") []
  else boundsFold (boundHits hs k) []

theorem areaAt_of_some (t : EpiViewTable) (k : String) (e : EpiViewEntry)
    (h : t.data k = some e) : areaAt t k = e.area := by
  unfold areaAt
  rw [h]
  rfl

theorem boundsAt_of_some (t : EpiViewTable) (k : String) (e : EpiViewEntry)
    (h : t.data k = some e) : boundsAt t k = e.bounds := by
  unfold boundsAt
  rw [h]
  rfl

theorem addBounds_fields (t : EpiViewTable) (hs : List BoundFeature)
    (t' : EpiViewTable) (h : addBounds t hs = some t') (k : String) :
    popAt t' k = popAt t k ∧ countsAt t' k = countsAt t k := by
  simp only [addBounds] at h
  split at h
  · cases h
  · split at h
    next e61 e47 e81 e05 e85 heq61 heq47 heq81 heq05 heq85 =>
      replace h := (Option.some.injEq _ _).mp h
      subst h
      constructor
      · rw [popAt_modify_of, popAt_modify_of]
        on_goal 2 => exact fun e => rfl
        on_goal 2 => exact fun e => rfl
        exact (boundsLoop_fields hs t k).1
      · rw [countsAt_modify_of, countsAt_modify_of]
        on_goal 2 => exact fun e => rfl
        on_goal 2 => exact fun e => rfl
        exact (boundsLoop_fields hs t k).2
    next => cases h

theorem addBounds_areaAt (t : EpiViewTable) (hs : List BoundFeature)
    (t' : EpiViewTable) (h : addBounds t hs = some t')
    (hz : ∀ k2, areaAt t k2 = 0) (k : String) : areaAt t' k = areaPred hs k := by
  simp only [addBounds] at h
  split at h
  · cases h
  · next eN heqN =>
    split at h
    next e61 e47 e81 e05 e85 heq61 heq47 heq81 heq05 heq85 =>
      replace h := (Option.some.injEq _ _).mp h
      subst h
      have hloop : ∀ b, areaAt (hs.foldl boundsStep t) b = areaFold (boundHits hs b) 0 := by
        intro b
        rw [boundsLoop_areaAt, hz b]
      rw [areaAt_modify_of]
      on_goal 2 => exact fun e => rfl
      by_cases hk : k = "36000"
      · subst hk
        rw [areaAt_modify_self _ _ _ eN heqN]
        show (36061 : ℚ) + e47.area + e81.area + e05.area + e85.area = _
        rw [show e47.area = areaAt (hs.foldl boundsStep t) "36047" from
            (areaAt_of_some _ _ _ heq47).symm,
          show e81.area = areaAt (hs.foldl boundsStep t) "36081" from
            (areaAt_of_some _ _ _ heq81).symm,
          show e05.area = areaAt (hs.foldl boundsStep t) "36005" from
            (areaAt_of_some _ _ _ heq05).symm,
          show e85.area = areaAt (hs.foldl boundsStep t) "36085" from
            (areaAt_of_some _ _ _ heq85).symm,
          hloop, hloop, hloop, hloop]
        unfold areaPred
        rw [if_pos rfl]
      · rw [areaAt_modify_other _ _ _ _ hk, hloop]
        unfold areaPred
        rw [if_neg hk]
    next => cases h

theorem addBounds_boundsAt (t : EpiViewTable) (hs : List BoundFeature)
    (t' : EpiViewTable) (h : addBounds t hs = some t')
    (hz : ∀ k2, boundsAt t k2 = []) (k : String) :
    boundsAt t' k = boundsPred hs k := by
  simp only [addBounds] at h
  split at h
  · cases h
  · next eN heqN =>
    split at h
    next e61 e47 e81 e05 e85 heq61 heq47 heq81 heq05 heq85 =>
      replace h := (Option.some.injEq _ _).mp h
      subst h
      have hloop : ∀ b, boundsAt (hs.foldl boundsStep t) b =
          boundsFold (boundHits hs b) [] := by
        intro b
        rw [boundsLoop_boundsAt, hz b]
      by_cases hk : k = "36000"
      · subst hk
        have hmid : ((hs.foldl boundsStep t).modify "36000" fun e =>
            { e with area := 36061 + e47.area + e81.area + e05.area + e85.area }).data
            "36000" = some { eN with
              area := 36061 + e47.area + e81.area + e05.area + e85.area } := by
          rw [EpiViewTable.modify_data_self, heqN]
          rfl
        rw [boundsAt_modify_self _ _ _ _ hmid]
        show e61.bounds ++ e47.bounds ++ e81.bounds ++ e05.bounds ++ e85.bounds = _
        rw [show e61.bounds = boundsAt (hs.foldl boundsStep t) "36061" from
            (boundsAt_of_some _ _ _ heq61).symm,
          show e47.bounds = boundsAt (hs.foldl boundsStep t) "36047" from
            (boundsAt_of_some _ _ _ heq47).symm,
          show e81.bounds = boundsAt (hs.foldl boundsStep t) "36081" from
            (boundsAt_of_some _ _ _ heq81).symm,
          show e05.bounds = boundsAt (hs.foldl boundsStep t) "36005" from
            (boundsAt_of_some _ _ _ heq05).symm,
          show e85.bounds = boundsAt (hs.foldl boundsStep t) "36085" from
            (boundsAt_of_some _ _ _ heq85).symm,
          hloop, hloop, hloop, hloop, hloop]
        unfold boundsPred
        rw [if_pos rfl]
      · rw [boundsAt_modify_other _ _ _ _ hk, boundsAt_modify_other _ _ _ _ hk, hloop]
        unfold boundsPred
        rw [if_neg hk]
    next => cases h

end EpiViewTable_COVID19_UnitedStates
theorem existsAt_modify (t : EpiViewTable) (k0 : String)
    (f : EpiViewEntry → EpiViewEntry) (k : String) :
    existsAt (t.modify k0 f) k ↔ existsAt t k := by
  unfold existsAt
  rw [EpiViewTable.data_modify]
  split
  next e hd =>
    by_cases hk : k = k0
    · subst hk
      rw [if_pos rfl, hd]
      simp
    · rw [if_neg hk]
  next hd => exact Iff.rfl

theorem existsAt_ensure (t : EpiViewTable) (k0 : String) (e0 : EpiViewEntry)
    (k : String) : existsAt (t.ensure k0 e0) k ↔ existsAt t k ∨ k = k0 := by
  unfold existsAt
  rw [EpiViewTable.data_ensure]
  split
  next e hd =>
    constructor
    · exact fun h => Or.inl h
    · rintro (h | h)
      · exact h
      · subst h
        rw [hd]
        rfl
  next hd =>
    by_cases hk : k = k0
    · subst hk
      rw [if_pos rfl]
      simp
    · rw [if_neg hk]
      simp [hk]

namespace EpiViewTable_COVID19_UnitedStates

/-- The counts each key ends with after the U.S. `addCounts` over a table
with all-empty counts. -/
def countsPred (rows : List CountRow) (k : String) : CountsMap :=
  applyCountHitsMap [] (countHits rows k)

theorem addCounts_fields (t : EpiViewTable) (rows : List CountRow) (k : String) :
    popAt (addCounts t rows) k = popAt t k ∧
    areaAt (addCounts t rows) k = areaAt t k ∧
    boundsAt (addCounts t rows) k = boundsAt t k := by
  have h1 : popAt (addCounts t rows) k = popAt (rows.foldl countsStep t) k := by
    unfold popAt
    rw [addCounts_data]
  have h2 : areaAt (addCounts t rows) k = areaAt (rows.foldl countsStep t) k := by
    unfold areaAt
    rw [addCounts_data]
  have h3 : boundsAt (addCounts t rows) k = boundsAt (rows.foldl countsStep t) k := by
    unfold boundsAt
    rw [addCounts_data]
  exact ⟨h1.trans (countsLoop_fields rows t k).1,
    h2.trans (countsLoop_fields rows t k).2.1,
    h3.trans (countsLoop_fields rows t k).2.2⟩

theorem addCounts_countsAt (t : EpiViewTable) (rows : List CountRow) (k : String) :
    countsAt (addCounts t rows) k = applyCountHitsMap (countsAt t k) (countHits rows k) := by
  have h : countsAt (addCounts t rows) k = countsAt (rows.foldl countsStep t) k := by
    unfold countsAt
    rw [addCounts_data]
  rw [h, countsLoop_countsAt]

theorem popLoop_exists (rows : List PopRow) (t : EpiViewTable) (k : String) :
    existsAt (rows.foldl popStep t) k ↔ existsAt t k ∨ popHits rows k ≠ [] := by
  unfold existsAt
  rw [popLoop_data]
  cases h : t.data k with
  | some e => simp
  | none =>
    cases hh : popHits rows k with
    | nil => simp
    | cons r rest => simp

theorem boundsLoop_exists (hs : List BoundFeature) (t : EpiViewTable) (k : String) :
    existsAt (hs.foldl boundsStep t) k ↔ existsAt t k ∨ boundHits hs k ≠ [] := by
  unfold existsAt
  rw [boundsLoop_data]
  cases h : t.data k with
  | some e => simp
  | none =>
    cases hh : boundHits hs k with
    | nil => simp
    | cons f rest => simp

theorem countsLoop_exists (rows : List CountRow) (t : EpiViewTable) (k : String) :
    existsAt (rows.foldl countsStep t) k ↔ existsAt t k ∨ countHits rows k ≠ [] := by
  unfold existsAt
  rw [countsLoop_data]
  cases h : t.data k with
  | some e => simp
  | none =>
    cases hh : countHits rows k with
    | nil => simp
    | cons r rest => simp

theorem addPopulation_exists (t : EpiViewTable) (rows : List PopRow)
    (t' : EpiViewTable) (h : addPopulation t rows = some t') (k : String) :
    existsAt t' k ↔ existsAt t k ∨ popHits rows k ≠ [] ∨ k = "36000" := by
  simp only [addPopulation] at h
  split at h
  next e47 e81 e05 e85 heq47 heq81 heq05 heq85 =>
    replace h := (Option.some.injEq _ _).mp h
    subst h
    rw [existsAt_modify, existsAt_ensure, popLoop_exists]
    tauto
  next => cases h

theorem addBounds_exists (t : EpiViewTable) (hs : List BoundFeature)
    (t' : EpiViewTable) (h : addBounds t hs = some t') (k : String) :
    existsAt t' k ↔ existsAt t k ∨ boundHits hs k ≠ [] := by
  simp only [addBounds] at h
  split at h
  · cases h
  · split at h
    next e61 e47 e81 e05 e85 heq61 heq47 heq81 heq05 heq85 =>
      replace h := (Option.some.injEq _ _).mp h
      subst h
      rw [existsAt_modify, existsAt_modify, boundsLoop_exists]
    next => cases h

theorem addCounts_exists (t : EpiViewTable) (rows : List CountRow) (k : String) :
    existsAt (addCounts t rows) k ↔ existsAt t k ∨ countHits rows k ≠ [] := by
  have h : existsAt (addCounts t rows) k ↔ existsAt (rows.foldl countsStep t) k := by
    unfold existsAt
    rw [addCounts_data]
  rw [h, countsLoop_exists]

end EpiViewTable_COVID19_UnitedStates

theorem init_proj (d : JSDate) (k : String) :
    popAt (EpiViewTable.init d) k = 0 ∧ areaAt (EpiViewTable.init d) k = 0 ∧
    boundsAt (EpiViewTable.init d) k = [] ∧ countsAt (EpiViewTable.init d) k = [] ∧
    ¬ existsAt (EpiViewTable.init d) k := by
  refine ⟨rfl, rfl, rfl, rfl, ?_⟩
  intro h
  simp [existsAt, EpiViewTable.init] at h
namespace EpiViewTable_COVID19_UnitedStates

/-- One of the three U.S. merge passes. -/
inductive Pass
  | population
  | bounds
  | counts
deriving DecidableEq, Repr

/-- The three decoded data feeds of one ingestion session. -/
structure USInputs where
  popRows : List PopRow
  features : List BoundFeature
  countRows : List CountRow

/-- Run one pass on a table (a JS throw is `none`). -/
def runPass (inp : USInputs) (t : EpiViewTable) : Pass → Option EpiViewTable
  | .population => addPopulation t inp.popRows
  | .bounds => addBounds t inp.features
  | .counts => some (addCounts t inp.countRows)

/-- Run a sequence of passes, stopping at the first throw. -/
def runSeq (inp : USInputs) (t : EpiViewTable) : List Pass → Option EpiViewTable
  | [] => some t
  | p :: ps => (runPass inp t p).bind fun t2 => runSeq inp t2 ps

/-- The 3! orderings of the three passes. -/
def perms3 : List (List Pass) :=
  [[.population, .bounds, .counts], [.population, .counts, .bounds],
   [.bounds, .population, .counts], [.bounds, .counts, .population],
   [.counts, .population, .bounds], [.counts, .bounds, .population]]

/-- Whether any feed references key `k` (so that the final table has an
entry there). -/
def keyRefd (inp : USInputs) (k : String) : Prop :=
  popHits inp.popRows k ≠ [] ∨ k = "36000" ∨ boundHits inp.features k ≠ [] ∨
    countHits inp.countRows k ≠ []

theorem runSeq3_inv (inp : USInputs) (t : EpiViewTable) (p1 p2 p3 : Pass)
    (t' : EpiViewTable) (h : runSeq inp t [p1, p2, p3] = some t') :
    ∃ t1 t2, runPass inp t p1 = some t1 ∧ runPass inp t1 p2 = some t2 ∧
      runPass inp t2 p3 = some t' := by
  simp only [runSeq, Option.bind_eq_some, Option.some.injEq] at h
  obtain ⟨t1, h1, t2, h2, t3, h3, h4⟩ := h
  exact ⟨t1, t2, h1, h2, h4 ▸ h3⟩

end EpiViewTable_COVID19_UnitedStates
namespace EpiViewTable_COVID19_UnitedStates

theorem popPass_state (inp : USInputs) (t t' : EpiViewTable)
    (h : addPopulation t inp.popRows = some t')
    {A : String → ℚ} {B : String → List (List Coord)} {C : String → CountsMap}
    {E : String → Prop}
    (hs : ∀ k, popAt t k = 0 ∧ areaAt t k = A k ∧ boundsAt t k = B k ∧
      countsAt t k = C k ∧ (existsAt t k ↔ E k)) :
    ∀ k, popAt t' k = popPred inp.popRows k ∧ areaAt t' k = A k ∧
      boundsAt t' k = B k ∧ countsAt t' k = C k ∧
      (existsAt t' k ↔ (E k ∨ popHits inp.popRows k ≠ [] ∨ k = "36000")) := by
  intro k
  have hz : ∀ k2, popAt t k2 = 0 := fun k2 => (hs k2).1
  refine ⟨addPopulation_popAt t _ t' h hz k, ?_, ?_, ?_, ?_⟩
  · exact (addPopulation_fields t _ t' h k).1.trans (hs k).2.1
  · exact (addPopulation_fields t _ t' h k).2.1.trans (hs k).2.2.1
  · exact (addPopulation_fields t _ t' h k).2.2.trans (hs k).2.2.2.1
  · rw [addPopulation_exists t _ t' h k, (hs k).2.2.2.2]

theorem boundsPass_state (inp : USInputs) (t t' : EpiViewTable)
    (h : addBounds t inp.features = some t')
    {P : String → ℚ} {C : String → CountsMap} {E : String → Prop}
    (hs : ∀ k, popAt t k = P k ∧ areaAt t k = 0 ∧ boundsAt t k = [] ∧
      countsAt t k = C k ∧ (existsAt t k ↔ E k)) :
    ∀ k, popAt t' k = P k ∧ areaAt t' k = areaPred inp.features k ∧
      boundsAt t' k = boundsPred inp.features k ∧ countsAt t' k = C k ∧
      (existsAt t' k ↔ (E k ∨ boundHits inp.features k ≠ [])) := by
  intro k
  have hza : ∀ k2, areaAt t k2 = 0 := fun k2 => (hs k2).2.1
  have hzb : ∀ k2, boundsAt t k2 = [] := fun k2 => (hs k2).2.2.1
  refine ⟨?_, addBounds_areaAt t _ t' h hza k, addBounds_boundsAt t _ t' h hzb k, ?_, ?_⟩
  · exact (addBounds_fields t _ t' h k).1.trans (hs k).1
  · exact (addBounds_fields t _ t' h k).2.trans (hs k).2.2.2.1
  · rw [addBounds_exists t _ t' h k, (hs k).2.2.2.2]

theorem countsPass_state (inp : USInputs) (t : EpiViewTable)
    {P : String → ℚ} {A : String → ℚ} {B : String → List (List Coord)}
    {E : String → Prop}
    (hs : ∀ k, popAt t k = P k ∧ areaAt t k = A k ∧ boundsAt t k = B k ∧
      countsAt t k = [] ∧ (existsAt t k ↔ E k)) :
    ∀ k, popAt (addCounts t inp.countRows) k = P k ∧
      areaAt (addCounts t inp.countRows) k = A k ∧
      boundsAt (addCounts t inp.countRows) k = B k ∧
      countsAt (addCounts t inp.countRows) k = countsPred inp.countRows k ∧
      (existsAt (addCounts t inp.countRows) k ↔
        (E k ∨ countHits inp.countRows k ≠ [])) := by
  intro k
  refine ⟨(addCounts_fields t _ k).1.trans (hs k).1,
    (addCounts_fields t _ k).2.1.trans (hs k).2.1,
    (addCounts_fields t _ k).2.2.trans (hs k).2.2.1, ?_, ?_⟩
  · rw [addCounts_countsAt, (hs k).2.2.2.1]
    rfl
  · rw [addCounts_exists, (hs k).2.2.2.2]

set_option maxHeartbeats 1000000 in
theorem runSeq_char (inp : USInputs) (d : JSDate) (σ : List Pass) (hσ : σ ∈ perms3)
    (t' : EpiViewTable) (h : runSeq inp (EpiViewTable.init d) σ = some t') (k : String) :
    popAt t' k = popPred inp.popRows k ∧
    areaAt t' k = areaPred inp.features k ∧
    boundsAt t' k = boundsPred inp.features k ∧
    countsAt t' k = countsPred inp.countRows k ∧
    (existsAt t' k ↔ keyRefd inp k) := by
  have s0 : ∀ k2, popAt (EpiViewTable.init d) k2 = 0 ∧
      areaAt (EpiViewTable.init d) k2 = 0 ∧
      boundsAt (EpiViewTable.init d) k2 = [] ∧
      countsAt (EpiViewTable.init d) k2 = [] ∧
      (existsAt (EpiViewTable.init d) k2 ↔ False) := by
    intro k2
    obtain ⟨a, b, c, dd, e⟩ := init_proj d k2
    exact ⟨a, b, c, dd, iff_false_intro e⟩
  fin_cases hσ
  · obtain ⟨t1, t2, h1, h2, h3⟩ := runSeq3_inv inp _ _ _ _ t' h
    simp only [runPass] at h1 h2 h3
    replace h3 := (Option.some.injEq _ _).mp h3
    subst h3
    have s1 := popPass_state inp _ t1 h1 s0
    have s2 := boundsPass_state inp t1 t2 h2 s1
    have s3 := countsPass_state inp t2 s2
    obtain ⟨a, b, c, dd, e⟩ := s3 k
    refine ⟨a, b, c, dd, e.trans ?_⟩
    unfold keyRefd
    tauto
  · obtain ⟨t1, t2, h1, h2, h3⟩ := runSeq3_inv inp _ _ _ _ t' h
    simp only [runPass] at h1 h2 h3
    replace h2 := (Option.some.injEq _ _).mp h2
    subst h2
    have s1 := popPass_state inp _ t1 h1 s0
    have s2 := countsPass_state inp t1 s1
    have s3 := boundsPass_state inp _ t' h3 s2
    obtain ⟨a, b, c, dd, e⟩ := s3 k
    refine ⟨a, b, c, dd, e.trans ?_⟩
    unfold keyRefd
    tauto
  · obtain ⟨t1, t2, h1, h2, h3⟩ := runSeq3_inv inp _ _ _ _ t' h
    simp only [runPass] at h1 h2 h3
    replace h3 := (Option.some.injEq _ _).mp h3
    subst h3
    have s1 := boundsPass_state inp _ t1 h1 s0
    have s2 := popPass_state inp t1 t2 h2 s1
    have s3 := countsPass_state inp t2 s2
    obtain ⟨a, b, c, dd, e⟩ := s3 k
    refine ⟨a, b, c, dd, e.trans ?_⟩
    unfold keyRefd
    tauto
  · obtain ⟨t1, t2, h1, h2, h3⟩ := runSeq3_inv inp _ _ _ _ t' h
    simp only [runPass] at h1 h2 h3
    replace h2 := (Option.some.injEq _ _).mp h2
    subst h2
    have s1 := boundsPass_state inp _ t1 h1 s0
    have s2 := countsPass_state inp t1 s1
    have s3 := popPass_state inp _ t' h3 s2
    obtain ⟨a, b, c, dd, e⟩ := s3 k
    refine ⟨a, b, c, dd, e.trans ?_⟩
    unfold keyRefd
    tauto
  · obtain ⟨t1, t2, h1, h2, h3⟩ := runSeq3_inv inp _ _ _ _ t' h
    simp only [runPass] at h1 h2 h3
    replace h1 := (Option.some.injEq _ _).mp h1
    subst h1
    have s1 := countsPass_state inp _ s0
    have s2 := popPass_state inp _ t2 h2 s1
    have s3 := boundsPass_state inp _ t' h3 s2
    obtain ⟨a, b, c, dd, e⟩ := s3 k
    refine ⟨a, b, c, dd, e.trans ?_⟩
    unfold keyRefd
    tauto
  · obtain ⟨t1, t2, h1, h2, h3⟩ := runSeq3_inv inp _ _ _ _ t' h
    simp only [runPass] at h1 h2 h3
    replace h1 := (Option.some.injEq _ _).mp h1
    subst h1
    have s1 := countsPass_state inp _ s0
    have s2 := boundsPass_state inp _ t2 h2 s1
    have s3 := popPass_state inp _ t' h3 s2
    obtain ⟨a, b, c, dd, e⟩ := s3 k
    refine ⟨a, b, c, dd, e.trans ?_⟩
    unfold keyRefd
    tauto

end EpiViewTable_COVID19_UnitedStates
namespace EpiViewTable_COVID19_UnitedStates

/-- A population row for Los Angeles County. -/
def popRowC2LA : PopRow := ⟨"06", "037", "Los Angeles County", "California", 10⟩

/-- A geometry-less boundary feature for a given GEOID. -/
def featB (geoid : String) : BoundFeature := ⟨geoid, "B" ++ geoid, "36", 0, .otherType⟩

/-- The Los Angeles boundary feature (its display name differs from the
census row's `CTYNAME`). -/
def featLA : BoundFeature := ⟨"06037", "Los Angeles", "06", 0, .otherType⟩

/-- Inputs on which every one of the six pass orderings completes. -/
def inpC2 : USInputs :=
  ⟨popRowsC3 ++ [popRowC2LA],
   [featB "36000", featB "36061", featB "36047", featB "36081", featB "36005",
    featB "36085", featLA],
   []⟩

/-- The table produced by the population → bounds → counts ordering on
`inpC2`. -/
def tC2w : EpiViewTable :=
  (runSeq inpC2 (EpiViewTable.init ⟨2020, 0, 1⟩)
    [Pass.population, Pass.bounds, Pass.counts]).getD (EpiViewTable.init ⟨2020, 0, 1⟩)

/-- C2 (counterexample): two pass orderings that both complete give the
`"06037"` entry different names — `addPopulation` first names it by the
census row's `CTYNAME` (`"Los Angeles County"`), `addBounds` first names
it by the feature's `NAME` (`"Los Angeles"`), because whichever pass first
references a key creates its entry and later passes never rewrite the
display fields.  So the final entries are not identical across orderings. -/
theorem c2_counterexample :
    ((runSeq inpC2 (EpiViewTable.init ⟨2020, 0, 1⟩)
        [Pass.population, Pass.bounds, Pass.counts]).map
      fun t => (t.data "06037").map EpiViewEntry.name) =
        some (some "Los Angeles County") ∧
    ((runSeq inpC2 (EpiViewTable.init ⟨2020, 0, 1⟩)
        [Pass.bounds, Pass.population, Pass.counts]).map
      fun t => (t.data "06037").map EpiViewEntry.name) =
        some (some "Los Angeles") ∧
    "Los Angeles County" ≠ "Los Angeles" :=
  ⟨rfl, rfl, by decide⟩

/-- C2 (amended): any two of the 3! pass orderings that both run to
completion agree, at every key, on the entry's population, area, bounds,
and counts, and on whether the key is present at all; only the display
name/region (set by whichever pass creates the entry) and completion
itself can differ between orderings. -/
theorem c2_pass_order_agreement (inp : USInputs) (d : JSDate)
    (p q : List Pass) (hp : p ∈ perms3) (hq : q ∈ perms3)
    (t1 t2 : EpiViewTable)
    (h1 : runSeq inp (EpiViewTable.init d) p = some t1)
    (h2 : runSeq inp (EpiViewTable.init d) q = some t2) (k : String) :
    popAt t1 k = popAt t2 k ∧ areaAt t1 k = areaAt t2 k ∧
    boundsAt t1 k = boundsAt t2 k ∧ countsAt t1 k = countsAt t2 k ∧
    (existsAt t1 k ↔ existsAt t2 k) := by
  obtain ⟨a1, b1, c1, d1, e1⟩ := runSeq_char inp d p hp t1 h1 k
  obtain ⟨a2, b2, c2, d2, e2⟩ := runSeq_char inp d q hq t2 h2 k
  exact ⟨a1.trans a2.symm, b1.trans b2.symm, c1.trans c2.symm, d1.trans d2.symm,
    e1.trans e2.symm⟩

/-- C2 witness: the agreement theorem applied to a concrete completing
run (both orderings the population → bounds → counts one). -/
theorem c2_witness :
    popAt tC2w "36000" = popAt tC2w "36000" ∧
    areaAt tC2w "36000" = areaAt tC2w "36000" ∧
    boundsAt tC2w "36000" = boundsAt tC2w "36000" ∧
    countsAt tC2w "36000" = countsAt tC2w "36000" ∧
    (existsAt tC2w "36000" ↔ existsAt tC2w "36000") := by
  have h : runSeq inpC2 (EpiViewTable.init ⟨2020, 0, 1⟩)
      [Pass.population, Pass.bounds, Pass.counts] = some tC2w := rfl
  exact c2_pass_order_agreement inpC2 ⟨2020, 0, 1⟩
    [Pass.population, Pass.bounds, Pass.counts]
    [Pass.population, Pass.bounds, Pass.counts]
    (by decide) (by decide) tC2w tC2w h h "36000"

end EpiViewTable_COVID19_UnitedStates
namespace EpiViewTable_COVID19_UnitedStates

theorem addBounds_areaAt_other (t : EpiViewTable) (hs : List BoundFeature)
    (t' : EpiViewTable) (h : addBounds t hs = some t') (k : String)
    (hk : k ≠ "36000") : areaAt t' k = areaFold (boundHits hs k) (areaAt t k) := by
  simp only [addBounds] at h
  split at h
  · cases h
  · split at h
    next e61 e47 e81 e05 e85 heq61 heq47 heq81 heq05 heq85 =>
      replace h := (Option.some.injEq _ _).mp h
      subst h
      rw [areaAt_modify_other _ _ _ _ hk, areaAt_modify_other _ _ _ _ hk,
        boundsLoop_areaAt]
    next => cases h

/-- A base table carrying fresh entries at the keys the `addBounds`
composite block dereferences. -/
def tC5b : EpiViewTable :=
  ((((((EpiViewTable.init ⟨2020, 0, 1⟩).set "36000"
    (EpiViewEntry.new "a" "b")).set "36061" (EpiViewEntry.new "a" "b")).set "36047"
    (EpiViewEntry.new "a" "b")).set "36081" (EpiViewEntry.new "a" "b")).set "36005"
    (EpiViewEntry.new "a" "b")).set "36085" (EpiViewEntry.new "a" "b")

/-- One Kings County feature contributing exactly one square mile. -/
def fsC5 : List BoundFeature :=
  [⟨"36047", "Kings", "36", sqMetersPerSqMile, .otherType⟩]

/-- The table after one `addBounds` run over `fsC5`. -/
def tC5b1 : EpiViewTable := (addBounds tC5b fsC5).getD tC5b

/-- The table after a second identical `addBounds` run. -/
def tC5b2 : EpiViewTable := (addBounds tC5b1 fsC5).getD tC5b

/-- The four-borough table that makes `addPopulation`'s composite block
succeed. -/
def tP0C5 : EpiViewTable :=
  (((((EpiViewTable.init ⟨2020, 0, 1⟩).set "36047"
    (EpiViewEntry.new "a" "b")).set "36081" (EpiViewEntry.new "a" "b")).set "36005"
    (EpiViewEntry.new "a" "b")).set "36085" (EpiViewEntry.new "a" "b"))

/-- The table `addPopulation` produces from `tP0C5` on an empty row set. -/
def tP1C5 : EpiViewTable := (addPopulation tP0C5 []).getD tP0C5

end EpiViewTable_COVID19_UnitedStates

namespace EpiViewTable_COVID19_LosAngeles

/-- A single L.A. place row with five confirmed cases. -/
def rowC5LA : CountRow := ⟨"2020-03-01", "Los Angeles", "Alhambra", 5⟩

/-- The table after ingesting `rowC5LA` once. -/
def tC5LA1 : EpiViewTable :=
  addCounts (EpiViewTable.init ⟨2020, 0, 1⟩) [rowC5LA]

/-- The table after ingesting the same row a second time. -/
def tC5LA2 : EpiViewTable := addCounts tC5LA1 [rowC5LA]

end EpiViewTable_COVID19_LosAngeles

/-- C5 (counterexample): `addBounds` and the Los Angeles `addCounts` are
NOT idempotent.  Re-running `addBounds` on the same single one-square-mile
feature doubles the key's accumulated area (1 then 2 square miles), and
re-running the L.A. `addCounts` on the same five-case row doubles the
date's case count (5 then 10), because both passes accumulate with `+=`
(and `addBounds` also re-appends polygons) instead of overwriting. -/
theorem c5_counterexample :
    areaAt EpiViewTable_COVID19_UnitedStates.tC5b1 "36047" = 1 ∧
    areaAt EpiViewTable_COVID19_UnitedStates.tC5b2 "36047" = 2 ∧
    (1 : ℚ) ≠ 2 ∧
    ((EpiViewTable_COVID19_LosAngeles.tC5LA1.data
        "Alhambra, Los Angeles County, California").map
      fun e => (countsGet e.counts "2020-03-01").cases) = some 5 ∧
    ((EpiViewTable_COVID19_LosAngeles.tC5LA2.data
        "Alhambra, Los Angeles County, California").map
      fun e => (countsGet e.counts "2020-03-01").cases) = some 10 ∧
    (5 : ℚ) ≠ 10 := by
  have h1 : EpiViewTable_COVID19_UnitedStates.addBounds
      EpiViewTable_COVID19_UnitedStates.tC5b
      EpiViewTable_COVID19_UnitedStates.fsC5 =
      some EpiViewTable_COVID19_UnitedStates.tC5b1 := rfl
  have h2 : EpiViewTable_COVID19_UnitedStates.addBounds
      EpiViewTable_COVID19_UnitedStates.tC5b1
      EpiViewTable_COVID19_UnitedStates.fsC5 =
      some EpiViewTable_COVID19_UnitedStates.tC5b2 := rfl
  have hhits : EpiViewTable_COVID19_UnitedStates.boundHits
      EpiViewTable_COVID19_UnitedStates.fsC5 "36047" =
      EpiViewTable_COVID19_UnitedStates.fsC5 := by
    simp [EpiViewTable_COVID19_UnitedStates.boundHits,
      EpiViewTable_COVID19_UnitedStates.fsC5]
  have ha1 : areaAt EpiViewTable_COVID19_UnitedStates.tC5b1 "36047" = 1 := by
    rw [EpiViewTable_COVID19_UnitedStates.addBounds_areaAt_other _ _ _ h1 "36047"
      (by decide), hhits]
    have h0 : areaAt EpiViewTable_COVID19_UnitedStates.tC5b "36047" = 0 := rfl
    rw [h0]
    show (0 : ℚ) + EpiViewTable_COVID19_UnitedStates.sqMetersPerSqMile /
      EpiViewTable_COVID19_UnitedStates.sqMetersPerSqMile = 1
    norm_num [EpiViewTable_COVID19_UnitedStates.sqMetersPerSqMile]
  have ha2 : areaAt EpiViewTable_COVID19_UnitedStates.tC5b2 "36047" = 2 := by
    rw [EpiViewTable_COVID19_UnitedStates.addBounds_areaAt_other _ _ _ h2 "36047"
      (by decide), hhits, ha1]
    show (1 : ℚ) + EpiViewTable_COVID19_UnitedStates.sqMetersPerSqMile /
      EpiViewTable_COVID19_UnitedStates.sqMetersPerSqMile = 2
    norm_num [EpiViewTable_COVID19_UnitedStates.sqMetersPerSqMile]
  have hkey : "Alhambra" ++ ", " ++ "Los Angeles" ++ " County, California" =
      "Alhambra, Los Angeles County, California" := rfl
  refine ⟨ha1, ha2, by norm_num, ?_, ?_, by norm_num⟩
  · norm_num [hkey, EpiViewTable_COVID19_LosAngeles.tC5LA1,
      EpiViewTable_COVID19_LosAngeles.addCounts, List.foldl,
      EpiViewTable_COVID19_LosAngeles.rowKept, EpiViewTable_COVID19_LosAngeles.rowC5LA,
      EpiViewTable_COVID19_LosAngeles.countsStep, EpiViewTable_COVID19_LosAngeles.rowName,
      EpiViewTable_COVID19_LosAngeles.ensureDateRec, EpiViewTable_COVID19_LosAngeles.bumpCases,
      countsKeys, countsSet, countsModify, countsGet,
      EpiViewTable.init, EpiViewTable.ensure, EpiViewTable.modify, EpiViewTable.set,
      EpiViewEntry.new, List.find?]
  · norm_num [hkey, EpiViewTable_COVID19_LosAngeles.tC5LA2,
      EpiViewTable_COVID19_LosAngeles.tC5LA1,
      EpiViewTable_COVID19_LosAngeles.addCounts, List.foldl,
      EpiViewTable_COVID19_LosAngeles.rowKept, EpiViewTable_COVID19_LosAngeles.rowC5LA,
      EpiViewTable_COVID19_LosAngeles.countsStep, EpiViewTable_COVID19_LosAngeles.rowName,
      EpiViewTable_COVID19_LosAngeles.ensureDateRec, EpiViewTable_COVID19_LosAngeles.bumpCases,
      countsKeys, countsSet, countsModify, countsGet,
      EpiViewTable.init, EpiViewTable.ensure, EpiViewTable.modify, EpiViewTable.set,
      EpiViewEntry.new, List.find?]

/-- C5 (amended): of the three merge passes, `addPopulation` is
idempotent (a second run on the same rows returns the same table), and
the U.S. `addCounts` is idempotent on any table whose per-entry counts
keys are duplicate-free (as JS object keys always are), because both
overwrite rather than accumulate.  `addBounds` and the Los Angeles
`addCounts` are not idempotent (see the counterexample). -/
theorem c5_idempotent_passes :
    (∀ (t : EpiViewTable) (rows : List EpiViewTable_COVID19_UnitedStates.PopRow)
      (t' : EpiViewTable),
      EpiViewTable_COVID19_UnitedStates.addPopulation t rows = some t' →
      EpiViewTable_COVID19_UnitedStates.addPopulation t' rows = some t') ∧
    (∀ (t : EpiViewTable) (rows : List EpiViewTable_COVID19_UnitedStates.CountRow),
      (∀ k e, t.data k = some e → (countsKeys e.counts).Nodup) →
      EpiViewTable_COVID19_UnitedStates.addCounts
        (EpiViewTable_COVID19_UnitedStates.addCounts t rows) rows =
        EpiViewTable_COVID19_UnitedStates.addCounts t rows) :=
  ⟨EpiViewTable_COVID19_UnitedStates.addPopulation_idem,
   EpiViewTable_COVID19_UnitedStates.addCounts_idem⟩

/-- C5 witness: a second `addPopulation` run on the concrete four-borough
table is a no-op, and a second U.S. `addCounts` run on the fresh table is
a no-op. -/
theorem c5_witness :
    EpiViewTable_COVID19_UnitedStates.addPopulation
      EpiViewTable_COVID19_UnitedStates.tP1C5 [] =
      some EpiViewTable_COVID19_UnitedStates.tP1C5 ∧
    EpiViewTable_COVID19_UnitedStates.addCounts
      (EpiViewTable_COVID19_UnitedStates.addCounts
        (EpiViewTable.init ⟨2020, 0, 1⟩) []) [] =
      EpiViewTable_COVID19_UnitedStates.addCounts
        (EpiViewTable.init ⟨2020, 0, 1⟩) [] :=
  ⟨c5_idempotent_passes.1 EpiViewTable_COVID19_UnitedStates.tP0C5 []
    EpiViewTable_COVID19_UnitedStates.tP1C5 rfl,
   c5_idempotent_passes.2 (EpiViewTable.init ⟨2020, 0, 1⟩) []
    (fun _ _ h => Option.noConfusion h)⟩
